import Mathlib

/-
  Verification development for the chatkit incremental message
  reconstruction engine.

  The definitions below are a shallow embedding of the TypeScript source:
  - src/components/dip/DIPBase.tsx        (patch interpreter, whitelist router,
                                           block projectors, retry wrapper)
  - src/components/ChatKitBase.tsx        (stream decoding, send, block sinks)
  - the ChatKitDataAgent copy of the same logic.

  JavaScript objects are mutable and aliased, and several specification
  claims are about mutation (immutability of the previous tree snapshot,
  in-place array writes).  We therefore model the JS heap explicitly: a
  store maps addresses to object/array nodes, values are primitives or
  references, and mutation prepends a fresh binding for an address.
-/

set_option linter.unusedVariables false

namespace ChatKit

/-- JavaScript primitive values as they occur in the JSON trees handled by
the patch interpreter.  jundef models the JS value undefined, which is
distinct from null (both are nullish). -/
inductive JPrim where
  | jnull
  | jundef
  | jstr (s : String)
  | jnum (n : Int)
  | jbool (b : Bool)
deriving DecidableEq, Repr

/-- A JS value is a primitive or a reference to a heap node. -/
inductive JVal where
  | prim (p : JPrim)
  | ref (a : Nat)
deriving DecidableEq, Repr

/-- A heap node: a plain object (ordered field list) or an array. -/
inductive JNode where
  | obj (fields : List (String × JVal))
  | arr (elems : List JVal)
deriving DecidableEq, Repr

/-- The JS heap: an association list of addresses (newest binding first)
together with the next fresh address.  Mutating a node is modelled by
prepending a new binding for the same address; lookup takes the first
match. -/
structure Store where
  heap : List (Nat × JNode)
  next : Nat
deriving DecidableEq, Repr

def lookupStore (s : Store) (a : Nat) : Option JNode :=
  (s.heap.find? (fun p => p.1 == a)).map (fun p => p.2)

def writeStore (s : Store) (a : Nat) (n : JNode) : Store :=
  { s with heap := (a, n) :: s.heap }

def allocStore (s : Store) (n : JNode) : Store × Nat :=
  ({ heap := (s.next, n) :: s.heap, next := s.next + 1 }, s.next)

/-- A path segment of a patch keyPath: a field name or an array index.
This mirrors the TypeScript type Array of string or number. -/
inductive JKey where
  | str (s : String)
  | idx (n : Nat)
deriving DecidableEq, Repr

/-- Property key coercion: JS coerces a numeric key to its decimal string
when used on a plain object. -/
def keyName : JKey → String
  | .str s => s
  | .idx n => toString n

/-- Field lookup on an object node; a missing field reads as undefined,
exactly as in JS. -/
def getFieldD (fields : List (String × JVal)) (k : String) : JVal :=
  match fields.find? (fun p => p.1 == k) with
  | some p => p.2
  | none => (.prim .jundef)

/-- Field update on an object node: an existing key is updated in place,
a new key is appended at the end (JS property insertion order). -/
def setField : List (String × JVal) → String → JVal → List (String × JVal)
  | [], k, v => [(k, v)]
  | (k0, v0) :: rest, k, v =>
      if k0 = k then (k, v) :: rest else (k0, v0) :: setField rest k v

/-- Array read; out-of-range indices read as undefined. -/
def arrGet (elems : List JVal) (n : Nat) : JVal :=
  elems.getD n (.prim .jundef)

/-- Array write at an index; writing past the end pads the array with
undefined holes, as JS assignment to an index beyond length does. -/
def arrSet (elems : List JVal) (n : Nat) (v : JVal) : List JVal :=
  if n < elems.length then elems.set n v
  else elems ++ List.replicate (n - elems.length) (.prim .jundef) ++ [v]

/-- The JS loose check (x == null), true exactly for null and undefined. -/
def isNullish : JVal → Bool
  | .prim .jnull => true
  | .prim .jundef => true
  | _ => false

/-- JS truthiness. -/
def truthy : JVal → Bool
  | .prim .jnull => false
  | .prim .jundef => false
  | .prim (.jstr s) => !(s = "")
  | .prim (.jnum n) => !(n = 0)
  | .prim (.jbool b) => b
  | .ref _ => true

/-- One JS property read current[k].  Reading a property of a primitive
yields undefined (string character indexing is not exercised by this code
and is not modelled).  Named properties of arrays other than indices are
not exercised by this code and read as undefined. -/
def getProp (s : Store) (v : JVal) (k : JKey) : JVal :=
  match v with
  | .prim _ => .prim .jundef
  | .ref a =>
      match lookupStore s a with
      | some (.obj fields) => getFieldD fields (keyName k)
      | some (.arr elems) =>
          match k with
          | .idx n => arrGet elems n
          | .str _ => .prim .jundef
      | none => (.prim .jundef)

/-- DIPBase.getNestedProperty: walk the key path, returning undefined as
soon as the current value is nullish (current == null check before each
access). -/
def getNestedProperty (s : Store) (v : JVal) : List JKey → JVal
  | [] => v
  | k :: rest =>
      if isNullish v then .prim .jundef
      else getNestedProperty s (getProp s v k) rest

/-- One JS property write current[k] = val.  Writing a property of a
primitive throws a TypeError in strict mode (the repository compiles as ES
modules); we model the throw as a false success flag with the store
unchanged at the point of failure.  A named (non-index) property written on
an array object is stored by JS but never read back by this code; it is
modelled as a no-op. -/
def writeProp (s : Store) (v : JVal) (k : JKey) (val : JVal) : Store × Bool :=
  match v with
  | .prim _ => (s, false)
  | .ref a =>
      match lookupStore s a with
      | some (.obj fields) => (writeStore s a (.obj (setField fields (keyName k) val)), true)
      | some (.arr elems) =>
          match k with
          | .idx n => (writeStore s a (.arr (arrSet elems n val)), true)
          | .str _ => (s, true)
      | none => (s, false)

/-- DIPBase.setNestedProperty: walk the path creating missing intermediate
nodes, choosing an array when the following key is numeric and an object
when it is a string, then assign the final key.  The Bool result is false
when a JS exception would have been raised (assignment through a
primitive); the returned store keeps all mutations made before the
failure point, as JS does. -/
def setNestedProperty (s : Store) (v : JVal) (keys : List JKey) (value : JVal) : Store × Bool :=
  match keys with
  | [] => (s, true)
  | [k] => writeProp s v k value
  | k :: k2 :: rest =>
      let cur := getProp s v k
      if isNullish cur then
        let newNode : JNode := match k2 with | .idx _ => .arr [] | .str _ => .obj []
        match allocStore s newNode with
        | (s1, a) =>
            match writeProp s1 v k (.ref a) with
            | (s2, ok) =>
                if ok then setNestedProperty s2 (.ref a) (k2 :: rest) value
                else (s2, false)
      else
        setNestedProperty s cur (k2 :: rest) value

/-- The object spread expression used by applyUpsert / applyAppend:
a shallow clone allocating one fresh node whose slots are the same values
(hence shared children).  Spreading an array into an object literal yields
an object with decimal index keys; spreading a primitive yields an empty
object. -/
def shallowCloneJS (s : Store) (v : JVal) : Store × JVal :=
  match v with
  | .ref a =>
      match lookupStore s a with
      | some (.obj fields) =>
          let r := allocStore s (.obj fields)
          (r.1, .ref r.2)
      | some (.arr elems) =>
          let fields := (List.range elems.length).map
            (fun i => (toString i, arrGet elems i))
          let r := allocStore s (.obj fields)
          (r.1, .ref r.2)
      | none =>
          let r := allocStore s (.obj [])
          (r.1, .ref r.2)
  | .prim _ =>
      let r := allocStore s (.obj [])
      (r.1, .ref r.2)

/-- DIPBase.applyUpsert: shallow-clone the root, then set the nested
property to the content.  The Bool is false when setNestedProperty threw. -/
def applyUpsert (s : Store) (v : JVal) (keys : List JKey) (content : JVal) :
    Store × JVal × Bool :=
  match keys with
  | [] => (s, v, true)
  | _ :: _ =>
      let sc := shallowCloneJS s v
      let r := setNestedProperty sc.1 sc.2 keys content
      (r.1, sc.2, r.2)

/-- DIPBase.applyAppend: shallow-clone the root; if the final key is
numeric, write content into that slot of the parent but only when the
parent already is an array (otherwise the write is silently skipped);
if the final key is a field name, concatenate when both the current value
and the content are strings, otherwise overwrite via setNestedProperty. -/
def applyAppend (s : Store) (v : JVal) (keys : List JKey) (content : JVal) :
    Store × JVal × Bool :=
  match keys.getLast? with
  | none => (s, v, true)
  | some lastKey =>
      let sc := shallowCloneJS s v
      let s1 := sc.1
      let cloned := sc.2
      match lastKey with
      | .idx nn =>
          let parentKey := keys.dropLast
          match getNestedProperty s1 cloned parentKey with
          | .ref a =>
              match lookupStore s1 a with
              | some (.arr elems) =>
                  (writeStore s1 a (.arr (arrSet elems nn content)), cloned, true)
              | _ => (s1, cloned, true)
          | _ => (s1, cloned, true)
      | .str _ =>
          let cur := getNestedProperty s1 cloned keys
          match cur, content with
          | .prim (.jstr s0), .prim (.jstr t) =>
              let r := setNestedProperty s1 cloned keys (.prim (.jstr (s0 ++ t)))
              (r.1, cloned, r.2)
          | _, _ =>
              let r := setNestedProperty s1 cloned keys content
              (r.1, cloned, r.2)

/-- All references contained in a value lie below the bound n. -/
def valBelow (n : Nat) : JVal → Prop
  | .ref a => a < n
  | .prim _ => True

/-- All references contained in a node lie below the bound n. -/
def nodeBelow (n : Nat) : JNode → Prop
  | .obj fields => ∀ p ∈ fields, valBelow n p.2
  | .arr elems => ∀ v ∈ elems, valBelow n v

/-- Store well-formedness: every binding uses an address below the fresh
counter and only mentions addresses below the fresh counter. -/
def StoreWF (s : Store) : Prop :=
  ∀ p ∈ s.heap, p.1 < s.next ∧ nodeBelow s.next p.2

instance : DecidablePred (valBelow n) := fun v => by
  cases v <;> simp [valBelow] <;> infer_instance

instance : DecidablePred (nodeBelow n) := fun nd => by
  cases nd <;> simp only [nodeBelow] <;> infer_instance

instance : Decidable (StoreWF s) := by
  unfold StoreWF; infer_instance

/-- The key path used by the progress claims:
message.content.middle_answer.progress. -/
def progressPath : List JKey :=
  [.str "message", .str "content", .str "middle_answer", .str "progress"]

/-- A store holding a single empty object, the empty assistant-message
tree. -/
def store1 : Store := ⟨[(0, .obj [])], 1⟩

/-! ### Heap lemmas -/

theorem lookup_writeStore_ne (s : Store) (a b : Nat) (nd : JNode) (h : b ≠ a) :
    lookupStore (writeStore s a nd) b = lookupStore s b := by
  unfold lookupStore writeStore
  rw [List.find?_cons_of_neg]
  simp [Ne.symm h]

theorem lookup_writeStore_eq (s : Store) (a : Nat) (nd : JNode) :
    lookupStore (writeStore s a nd) a = some nd := by
  unfold lookupStore writeStore
  rw [List.find?_cons_of_pos] <;> simp

theorem lookup_alloc_ne (s : Store) (nd : JNode) (b : Nat) (h : b ≠ s.next) :
    lookupStore (allocStore s nd).1 b = lookupStore s b := by
  unfold lookupStore allocStore
  rw [List.find?_cons_of_neg]
  simp [Ne.symm h]

theorem lookup_alloc_eq (s : Store) (nd : JNode) :
    lookupStore (allocStore s nd).1 s.next = some nd := by
  unfold lookupStore allocStore
  rw [List.find?_cons_of_pos] <;> simp

theorem lookup_wf {s : Store} {a : Nat} {nd : JNode} (hwf : StoreWF s)
    (h : lookupStore s a = some nd) : a < s.next ∧ nodeBelow s.next nd := by
  unfold lookupStore at h
  cases hfind : s.heap.find? (fun p => p.1 == a) with
  | none => rw [hfind] at h; simp at h
  | some p =>
      rw [hfind] at h
      simp only [Option.map_some', Option.some.injEq] at h
      have hmem := List.mem_of_find?_eq_some hfind
      have hpred := List.find?_some hfind
      have ha : p.1 = a := by simpa using hpred
      have := hwf p hmem
      rw [ha, h] at this
      exact this

theorem getFieldD_below {n : Nat} {fields : List (String × JVal)}
    (h : nodeBelow n (.obj fields)) (k : String) : valBelow n (getFieldD fields k) := by
  unfold getFieldD
  cases hfind : fields.find? (fun p => p.1 == k) with
  | none => simp [valBelow]
  | some p => exact h p (List.mem_of_find?_eq_some hfind)

theorem arrGet_below {n : Nat} {elems : List JVal}
    (h : nodeBelow n (.arr elems)) (i : Nat) : valBelow n (arrGet elems i) := by
  unfold arrGet
  simp only [List.getD, List.get?_eq_getElem?]
  rcases hlt : elems[i]? with _ | v
  · simp [valBelow]
  · simp only [Option.getD_some]
    obtain ⟨hi, hv⟩ := List.getElem?_eq_some.mp hlt
    exact hv ▸ h elems[i] (List.getElem_mem hi)

theorem getProp_below {s : Store} (hwf : StoreWF s) {v : JVal}
    (hv : valBelow s.next v) (k : JKey) : valBelow s.next (getProp s v k) := by
  cases v with
  | prim p => simp [getProp, valBelow]
  | ref a =>
      cases hlk : lookupStore s a with
      | none => simp [getProp, hlk, valBelow]
      | some nd =>
          have hnd := (lookup_wf hwf hlk).2
          cases nd with
          | obj fields =>
              simpa [getProp, hlk] using getFieldD_below hnd (keyName k)
          | arr elems =>
              cases k with
              | idx i => simpa [getProp, hlk] using arrGet_below hnd i
              | str t => simp [getProp, hlk, valBelow]

theorem getNested_undef (s : Store) (p : List JKey) :
    getNestedProperty s (.prim .jundef) p = .prim .jundef := by
  cases p <;> simp [getNestedProperty, isNullish]

theorem getNested_append (s : Store) (v : JVal) (p q : List JKey) :
    getNestedProperty s v (p ++ q) =
      getNestedProperty s (getNestedProperty s v p) q := by
  induction p generalizing v with
  | nil => simp [getNestedProperty]
  | cons k rest ih =>
      by_cases h : isNullish v
      · simp [getNestedProperty, h, getNested_undef]
      · simp [getNestedProperty, h, ih]

theorem getNested_congr {s s2 : Store} (hwf : StoreWF s)
    (hlk : ∀ b, b < s.next → lookupStore s2 b = lookupStore s b) :
    ∀ (p : List JKey) (v : JVal), valBelow s.next v →
      getNestedProperty s2 v p = getNestedProperty s v p := by
  intro p
  induction p with
  | nil => intro v _; rfl
  | cons k rest ih =>
      intro v hv
      by_cases h : isNullish v
      · simp [getNestedProperty, h]
      · have hgp : getProp s2 v k = getProp s v k := by
          cases v with
          | prim q => rfl
          | ref b =>
              have hb : b < s.next := by simpa [valBelow] using hv
              simp only [getProp, hlk b hb]
        simp only [getNestedProperty, h, Bool.false_eq_true, if_false, hgp]
        exact ih (getProp s v k) (getProp_below hwf hv k)

theorem arrGet_arrSet (elems : List JVal) (n : Nat) (v : JVal) :
    arrGet (arrSet elems n v) n = v := by
  unfold arrSet arrGet
  by_cases h : n < elems.length
  · simp [h, List.getD, List.get?_eq_getElem?, List.getElem?_set_eq_of_lt _ h]
  · have hn : elems.length ≤ n := Nat.le_of_not_lt h
    have hlen : (elems ++ List.replicate (n - elems.length) (JVal.prim .jundef)).length = n := by
      simp [Nat.add_sub_cancel' hn]
    rw [if_neg h]
    simp only [List.getD, List.get?_eq_getElem?]
    rw [List.getElem?_append_right (by simp; omega), hlen]
    simp [hlen]

/-- Reduction rule for applyAppend on a key path ending in a numeric
index. -/
theorem applyAppend_concat_idx (s : Store) (v : JVal) (l : List JKey) (n : Nat)
    (content : JVal) :
    applyAppend s v (l ++ [.idx n]) content =
      (match getNestedProperty (shallowCloneJS s v).1 (shallowCloneJS s v).2 l with
       | .ref a =>
           match lookupStore (shallowCloneJS s v).1 a with
           | some (.arr elems) =>
               (writeStore (shallowCloneJS s v).1 a (.arr (arrSet elems n content)),
                 (shallowCloneJS s v).2, true)
           | _ => ((shallowCloneJS s v).1, (shallowCloneJS s v).2, true)
       | _ => ((shallowCloneJS s v).1, (shallowCloneJS s v).2, true)) := by
  unfold applyAppend
  rw [List.getLast?_concat, List.dropLast_concat]

/-- Walking a non-empty key path from the shallow clone of an object reads
the same value as walking it from the original object. -/
theorem getNested_shallowClone {st : Store} {c : Nat} {f : List (String × JVal)}
    (hwf : StoreWF st) (hc : lookupStore st c = some (.obj f))
    (k : JKey) (rest : List JKey) :
    getNestedProperty (shallowCloneJS st (.ref c)).1 (shallowCloneJS st (.ref c)).2
      (k :: rest) = getNestedProperty st (.ref c) (k :: rest) := by
  have hsc : shallowCloneJS st (.ref c) =
      ((allocStore st (.obj f)).1, .ref st.next) := by
    simp [shallowCloneJS, hc, allocStore]
  rw [hsc]
  have hlk : ∀ b, b < st.next →
      lookupStore (allocStore st (.obj f)).1 b = lookupStore st b := by
    intro b hb
    exact lookup_alloc_ne st (.obj f) b (Nat.ne_of_lt hb)
  have hfresh : lookupStore (allocStore st (.obj f)).1 st.next = some (.obj f) :=
    lookup_alloc_eq st (.obj f)
  have hbel := (lookup_wf hwf hc).2
  have hcn : ¬ (isNullish (JVal.ref st.next) = true) := by simp [isNullish]
  have hcn0 : ¬ (isNullish (JVal.ref c) = true) := by simp [isNullish]
  simp only [getNestedProperty, hcn, hcn0, if_false]
  have hgp1 : getProp (allocStore st (.obj f)).1 (.ref st.next) k = getFieldD f (keyName k) := by
    simp [getProp, hfresh]
  have hgp2 : getProp st (.ref c) k = getFieldD f (keyName k) := by
    simp [getProp, hc]
  rw [hgp1, hgp2]
  exact getNested_congr hwf hlk rest _ (getFieldD_below hbel (keyName k))

theorem valBelow_mono {m n : Nat} (h : m ≤ n) : ∀ {v}, valBelow m v → valBelow n v := by
  intro v hv
  cases v with
  | prim p => exact trivial
  | ref a => simp only [valBelow] at hv ⊢; omega

theorem nodeBelow_mono {m n : Nat} (h : m ≤ n) : ∀ {nd}, nodeBelow m nd → nodeBelow n nd := by
  intro nd
  cases nd with
  | obj f => intro hb q hq; exact valBelow_mono h (hb q hq)
  | arr es => intro hb q hq; exact valBelow_mono h (hb q hq)

theorem storeWF_alloc {s : Store} (hwf : StoreWF s) {nd : JNode}
    (hnd : nodeBelow s.next nd) : StoreWF (allocStore s nd).1 := by
  intro p hp
  have hnx : (allocStore s nd).1.next = s.next + 1 := rfl
  rw [hnx]
  rcases List.mem_cons.mp hp with h | h
  · subst h
    exact ⟨Nat.lt_succ_self _, nodeBelow_mono (Nat.le_succ _) hnd⟩
  · have hq := hwf p h
    exact ⟨Nat.lt_succ_of_lt hq.1, nodeBelow_mono (Nat.le_succ _) hq.2⟩

theorem storeWF_write {s : Store} (hwf : StoreWF s) {a : Nat} {nd : JNode}
    (ha : a < s.next) (hnd : nodeBelow s.next nd) : StoreWF (writeStore s a nd) := by
  intro p hp
  rcases List.mem_cons.mp hp with h | h
  · subst h
    exact ⟨ha, hnd⟩
  · exact hwf p h

/-- A walk along an all-string key path that ends at an array node is not
disturbed by rewriting that array node (the walk cannot pass through the
array, since a string key read on an array yields undefined). -/
theorem walk_stable_write {st s2 : Store} {a : Nat} {el : List JVal}
    (hwf : StoreWF st)
    (harr : lookupStore st a = some (.arr el))
    (hlk2 : ∀ b, b < st.next → b ≠ a → lookupStore s2 b = lookupStore st b) :
    ∀ (p : List JKey), (∀ k ∈ p, ∃ t, k = JKey.str t) →
      ∀ v, valBelow st.next v → getNestedProperty st v p = .ref a →
        getNestedProperty s2 v p = .ref a := by
  intro p
  induction p with
  | nil => intro _ v _ hwalk; exact hwalk
  | cons k rest ih =>
      intro hstr v hv hwalk
      by_cases hn : isNullish v
      · simp [getNestedProperty, hn] at hwalk
      · cases v with
        | prim p0 =>
            exfalso
            have : getProp st (.prim p0) k = .prim .jundef := rfl
            simp [getNestedProperty, hn, this, getNested_undef] at hwalk
        | ref b =>
            have hb : b < st.next := by simpa [valBelow] using hv
            by_cases hba : b = a
            · exfalso
              obtain ⟨t, rfl⟩ := hstr k (List.mem_cons_self k rest)
              subst hba
              have : getProp st (.ref b) (.str t) = .prim .jundef := by
                simp [getProp, harr]
              simp [getNestedProperty, hn, this, getNested_undef] at hwalk
            · have hgp : getProp s2 (.ref b) k = getProp st (.ref b) k := by
                simp only [getProp, hlk2 b hb hba]
              simp only [getNestedProperty, hn, Bool.false_eq_true, if_false] at hwalk ⊢
              rw [hgp]
              exact ih (fun k2 hk2 => hstr k2 (List.mem_cons_of_mem k hk2))
                _ (getProp_below hwf hv k) hwalk

/-! ### Claim C1: array-index append on a missing path -/

/-- Claim C1 (counterexample): on the empty assistant-message tree, the
append patch at message.content.middle_answer.progress[0] does NOT set
progress[0]: applyAppend silently skips the write because the parent path
resolves to undefined rather than an existing array, and no intermediate
nodes are created, contrary to the claim that progress is created as an
array with progress[0] = X. -/
theorem applyAppend_progress_missing_counterexample :
    getNestedProperty
      (applyAppend store1 (.ref 0) (progressPath ++ [.idx 0]) (.prim (.jstr "step"))).1
      (applyAppend store1 (.ref 0) (progressPath ++ [.idx 0]) (.prim (.jstr "step"))).2.1
      (progressPath ++ [.idx 0]) = .prim .jundef := by decide

/-- Claim C1 (amended): applyAppend with a key path ending in a numeric
index N under message.content.middle_answer.progress writes progress[N] = X
only when the progress array already exists; when the path is missing the
patch is silently skipped, no intermediate nodes are created, and every
property of the returned tree reads the same as in the input tree. -/
theorem applyAppend_progress_amended
    (st : Store) (c : Nat) (f : List (String × JVal)) (n : Nat) (x : JVal)
    (hwf : StoreWF st) (hc : lookupStore st c = some (.obj f)) :
    (getNestedProperty st (.ref c) progressPath = .prim .jundef →
       (applyAppend st (.ref c) (progressPath ++ [.idx n]) x).2.2 = true ∧
       getNestedProperty (applyAppend st (.ref c) (progressPath ++ [.idx n]) x).1
         (applyAppend st (.ref c) (progressPath ++ [.idx n]) x).2.1
         (progressPath ++ [.idx n]) = .prim .jundef ∧
       ∀ (k : JKey) (p : List JKey),
         getNestedProperty (applyAppend st (.ref c) (progressPath ++ [.idx n]) x).1
           (applyAppend st (.ref c) (progressPath ++ [.idx n]) x).2.1 (k :: p) =
           getNestedProperty st (.ref c) (k :: p)) ∧
    (∀ (a : Nat) (elems : List JVal),
       getNestedProperty st (.ref c) progressPath = .ref a →
       lookupStore st a = some (.arr elems) →
       getNestedProperty (applyAppend st (.ref c) (progressPath ++ [.idx n]) x).1
         (applyAppend st (.ref c) (progressPath ++ [.idx n]) x).2.1
         (progressPath ++ [.idx n]) = x) := by
  constructor
  · intro h1
    have hwalk : getNestedProperty (shallowCloneJS st (.ref c)).1
        (shallowCloneJS st (.ref c)).2 progressPath = .prim .jundef :=
      (getNested_shallowClone hwf hc (.str "message")
        [.str "content", .str "middle_answer", .str "progress"]).trans h1
    have happ : applyAppend st (.ref c) (progressPath ++ [.idx n]) x =
        ((shallowCloneJS st (.ref c)).1, (shallowCloneJS st (.ref c)).2, true) := by
      rw [applyAppend_concat_idx, hwalk]
    refine ⟨by rw [happ], ?_, ?_⟩
    · rw [happ, getNested_append]
      simp only
      rw [hwalk, getNested_undef]
    · intro k p
      rw [happ]
      exact getNested_shallowClone hwf hc k p
  · intro a elems h2 harr
    have ha : a < st.next := (lookup_wf hwf harr).1
    have hwalk2 : getNestedProperty (shallowCloneJS st (.ref c)).1
        (shallowCloneJS st (.ref c)).2 progressPath = .ref a :=
      (getNested_shallowClone hwf hc (.str "message")
        [.str "content", .str "middle_answer", .str "progress"]).trans h2
    have hsc : shallowCloneJS st (.ref c) =
        ((allocStore st (.obj f)).1, .ref st.next) := by
      simp [shallowCloneJS, hc, allocStore]
    have hlksc : lookupStore (shallowCloneJS st (.ref c)).1 a = some (.arr elems) := by
      rw [hsc]
      exact (lookup_alloc_ne st (.obj f) a (Nat.ne_of_lt ha)).trans harr
    rw [applyAppend_concat_idx, hwalk2]
    dsimp only
    rw [hlksc]
    dsimp only
    rw [getNested_append]
    have hstable : getNestedProperty
        (writeStore (shallowCloneJS st (.ref c)).1 a (.arr (arrSet elems n x)))
        (shallowCloneJS st (.ref c)).2 progressPath = .ref a := by
      have hwfsc : StoreWF (shallowCloneJS st (.ref c)).1 := by
        rw [hsc]
        exact storeWF_alloc hwf (lookup_wf hwf hc).2
      refine walk_stable_write hwfsc hlksc ?_ progressPath ?_ _ ?_ hwalk2
      · intro b hb hba
        exact lookup_writeStore_ne _ a b _ hba
      · intro k hk
        simp only [progressPath, List.mem_cons, List.mem_singleton] at hk
        rcases hk with rfl | rfl | rfl | rfl | hk
        · exact ⟨_, rfl⟩
        · exact ⟨_, rfl⟩
        · exact ⟨_, rfl⟩
        · exact ⟨_, rfl⟩
        · exact absurd hk (List.not_mem_nil k)
      · rw [hsc]
        exact Nat.lt_succ_self st.next
    rw [hstable]
    have : getProp (writeStore (shallowCloneJS st (.ref c)).1 a (.arr (arrSet elems n x)))
        (.ref a) (.idx n) = x := by
      simp [getProp, lookup_writeStore_eq, arrGet_arrSet]
    simp [getNestedProperty, isNullish, this]

/-- A store holding the nested assistant-message tree
message.content.middle_answer.progress with an existing empty progress
array. -/
def store2 : Store :=
  ⟨[(0, .obj [("message", .ref 1)]),
    (1, .obj [("content", .ref 2)]),
    (2, .obj [("middle_answer", .ref 3)]),
    (3, .obj [("progress", .ref 4)]),
    (4, .arr [])], 5⟩

/-- Witness for the amended claim C1, exercising both the missing-path case
(on the empty tree) and the existing-array case (on store2). -/
theorem applyAppend_progress_amended_witness :
    (StoreWF store1 ∧ lookupStore store1 0 = some (.obj []) ∧
      getNestedProperty store1 (.ref 0) progressPath = .prim .jundef ∧
      getNestedProperty
        (applyAppend store1 (.ref 0) (progressPath ++ [.idx 0]) (.prim (.jstr "s1x"))).1
        (applyAppend store1 (.ref 0) (progressPath ++ [.idx 0]) (.prim (.jstr "s1x"))).2.1
        (progressPath ++ [.idx 0]) = .prim .jundef) ∧
    (StoreWF store2 ∧ lookupStore store2 0 = some (.obj [("message", .ref 1)]) ∧
      getNestedProperty store2 (.ref 0) progressPath = .ref 4 ∧
      lookupStore store2 4 = some (.arr []) ∧
      getNestedProperty
        (applyAppend store2 (.ref 0) (progressPath ++ [.idx 0]) (.prim (.jstr "s2x"))).1
        (applyAppend store2 (.ref 0) (progressPath ++ [.idx 0]) (.prim (.jstr "s2x"))).2.1
        (progressPath ++ [.idx 0]) = .prim (.jstr "s2x")) := by
  refine ⟨⟨by decide, by decide, by decide, ?_⟩,
          ⟨by decide, by decide, by decide, by decide, ?_⟩⟩
  · exact ((applyAppend_progress_amended store1 0 [] 0 (.prim (.jstr "s1x"))
      (by decide) (by decide)).1 (by decide)).2.1
  · exact (applyAppend_progress_amended store2 0 [("message", .ref 1)] 0
      (.prim (.jstr "s2x")) (by decide) (by decide)).2 4 [] (by decide) (by decide)

/-! ### Claim C4: the token-refresh retry wrapper -/

/-- A transport error as classified by the retry wrapper; status is the
HTTP status code and tag distinguishes error values. -/
structure ErrM where
  status : Nat
  tag : Nat
deriving DecidableEq, Repr

/-- DIPBase.shouldRefreshToken: the platform signals an expired token with
HTTP 401. -/
def shouldRefreshToken (status : Nat) : Bool := status == 401

deriving instance DecidableEq for Except

/-- Observable outcome of one executeWithTokenRefresh run: the value
returned or error thrown, how many times the wrapped api call ran, how
many times refreshToken ran, and the token written after a successful
refresh. -/
structure RetryOutcome (T : Type) where
  result : Except ErrM T
  apiCalls : Nat
  refreshCalls : Nat
  tokenAfter : Option String
deriving DecidableEq, Repr

/-- ChatKitBase.executeWithTokenRefresh / DIPBase.executeDataAgentWithTokenRefresh.
The wrapped call is modelled by the outcome of its first invocation and of
its (at most one) retry; refreshToken by its outcome.  Control flow mirrors
the source: a first failure classified by shouldRefreshToken triggers one
refresh and one retry; a refresh failure rethrows the original error; a
retry failure rethrows from the inner catch, which the enclosing catch
around the refresh intercepts, so the ORIGINAL error is what reaches the
caller (the inner comment says the retry error is thrown, but the nested
try/catch structure swallows it). -/
def executeWithTokenRefresh {T : Type} (sr : Nat → Bool) (hasRefreshToken : Bool)
    (first : Except ErrM T) (refresh : Except Unit String)
    (retry : Except ErrM T) : RetryOutcome T :=
  match first with
  | .ok v => ⟨.ok v, 1, 0, none⟩
  | .error e =>
      if sr e.status && hasRefreshToken then
        match refresh with
        | .error _ => ⟨.error e, 1, 1, none⟩
        | .ok tok =>
            match retry with
            | .ok v => ⟨.ok v, 2, 1, some tok⟩
            | .error _ => ⟨.error e, 2, 1, some tok⟩
      else ⟨.error e, 1, 0, none⟩

/-- Claim C4 (code bug): with a wrapped call that always fails with status
401 and a refresh that succeeds, the wrapper performs exactly one refresh
and exactly one retry (as the claim states), but the error that propagates
is the ORIGINAL first error, not the retry error: the inner throw of the
retry error lands in the enclosing catch block of the refresh, which
rethrows the original error.  The claim (and the comment in the source)
say the retry error propagates. -/
theorem executeWithTokenRefresh_retry_error_swallowed :
    (executeWithTokenRefresh shouldRefreshToken true
        (.error ⟨401, 1⟩) (.ok "tok2") (.error ⟨401, 2⟩) : RetryOutcome String).refreshCalls = 1 ∧
    (executeWithTokenRefresh shouldRefreshToken true
        (.error ⟨401, 1⟩) (.ok "tok2") (.error ⟨401, 2⟩) : RetryOutcome String).apiCalls = 2 ∧
    (executeWithTokenRefresh shouldRefreshToken true
        (.error ⟨401, 1⟩) (.ok "tok2") (.error ⟨401, 2⟩) : RetryOutcome String).result = .error ⟨401, 1⟩ ∧
    (executeWithTokenRefresh shouldRefreshToken true
        (.error ⟨401, 1⟩) (.ok "tok2") (.error ⟨401, 2⟩) : RetryOutcome String).result ≠ .error ⟨401, 2⟩ ∧
    (executeWithTokenRefresh shouldRefreshToken true
        (.error ⟨401, 1⟩) (.error ()) (.error ⟨401, 2⟩) : RetryOutcome String).result = .error ⟨401, 1⟩ ∧
    (executeWithTokenRefresh shouldRefreshToken true
        (.error ⟨401, 1⟩) (.error ()) (.error ⟨401, 2⟩) : RetryOutcome String).apiCalls = 1 := by
  decide

/-! ### Content blocks and the block sinks -/

/-- RoleType from types/index.ts. -/
inductive RoleTypeM where
  | user
  | assistant
deriving DecidableEq, Repr

/-- Role from types/index.ts. -/
structure RoleM where
  name : String
  type : RoleTypeM
  avatar : String
deriving DecidableEq, Repr

/-- One result item of a web search (WebSearchResult); the field values are
the raw payload values with a falsy-to-empty-string default. -/
structure WebSearchResultM where
  content : JVal
  icon : JVal
  link : JVal
  media : JVal
  title : JVal
deriving DecidableEq, Repr

/-- WebSearchQuery: the search input and result list. -/
structure WebSearchQueryM where
  input : JVal
  results : List WebSearchResultM
deriving DecidableEq, Repr

/-- The inferred column type of a chart field (inferDataType's codomain). -/
inductive DataType where
  | string
  | number
  | date
  | boolean
deriving DecidableEq, Repr

/-- One dimension entry of a ChartDataSchema. -/
structure DimensionM where
  name : String
  displayName : String
  dataType : DataType
deriving DecidableEq, Repr

/-- One measure entry of a ChartDataSchema. -/
structure MeasureM where
  name : String
  displayName : String
  dataType : DataType
deriving DecidableEq, Repr

/-- ChartDataSchema as built by extractJson2PlotData /
extractChartDataFromArgs. -/
structure ChartDataSchemaM where
  chartType : String
  title : JVal
  dimensions : List DimensionM
  measures : List MeasureM
  rows : List JVal
deriving DecidableEq, Repr

/-- ExecuteCodeResult: source code input and stdout output. -/
structure ExecuteCodeResultM where
  input : JVal
  output : JVal
deriving DecidableEq, Repr

/-- One cite entry of a Text2SQL result. -/
structure CiteM where
  id : JVal
  name : JVal
  type : JVal
  description : JVal
deriving DecidableEq, Repr

/-- The data_desc record of a Text2SQL result. -/
structure DataDescM where
  return_records_num : JVal
  real_records_num : JVal
deriving DecidableEq, Repr

/-- Text2SqlResult as built by extractText2SqlResult. -/
structure Text2SqlResultM where
  input : JVal
  sql : JVal
  data : List JVal
  cites : List CiteM
  title : JVal
  message : JVal
  dataDesc : Option DataDescM
  explanation : JVal
deriving DecidableEq, Repr

/-- A pure JSON value, used for patch contents arriving from the wire and
for application-context data.  Allocating one into the store models the
object JSON.parse builds. -/
inductive Json where
  | null
  | str (s : String)
  | num (n : Int)
  | bool (b : Bool)
  | obj (fields : List (String × Json))
  | arr (elems : List Json)

mutual

def Json.decEq : (a b : Json) → Decidable (a = b)
  | .null, .null => isTrue rfl
  | .null, .str _ => isFalse (by simp)
  | .null, .num _ => isFalse (by simp)
  | .null, .bool _ => isFalse (by simp)
  | .null, .obj _ => isFalse (by simp)
  | .null, .arr _ => isFalse (by simp)
  | .str _, .null => isFalse (by simp)
  | .str s1, .str s2 =>
      if h : s1 = s2 then isTrue (by rw [h]) else isFalse (by simp [h])
  | .str _, .num _ => isFalse (by simp)
  | .str _, .bool _ => isFalse (by simp)
  | .str _, .obj _ => isFalse (by simp)
  | .str _, .arr _ => isFalse (by simp)
  | .num _, .null => isFalse (by simp)
  | .num _, .str _ => isFalse (by simp)
  | .num n1, .num n2 =>
      if h : n1 = n2 then isTrue (by rw [h]) else isFalse (by simp [h])
  | .num _, .bool _ => isFalse (by simp)
  | .num _, .obj _ => isFalse (by simp)
  | .num _, .arr _ => isFalse (by simp)
  | .bool _, .null => isFalse (by simp)
  | .bool _, .str _ => isFalse (by simp)
  | .bool _, .num _ => isFalse (by simp)
  | .bool b1, .bool b2 =>
      if h : b1 = b2 then isTrue (by rw [h]) else isFalse (by simp [h])
  | .bool _, .obj _ => isFalse (by simp)
  | .bool _, .arr _ => isFalse (by simp)
  | .obj _, .null => isFalse (by simp)
  | .obj _, .str _ => isFalse (by simp)
  | .obj _, .num _ => isFalse (by simp)
  | .obj _, .bool _ => isFalse (by simp)
  | .obj f1, .obj f2 =>
      match Json.decEqFields f1 f2 with
      | isTrue h => isTrue (by rw [h])
      | isFalse h => isFalse (by intro hh; injection hh with h2; exact h h2)
  | .obj _, .arr _ => isFalse (by simp)
  | .arr _, .null => isFalse (by simp)
  | .arr _, .str _ => isFalse (by simp)
  | .arr _, .num _ => isFalse (by simp)
  | .arr _, .bool _ => isFalse (by simp)
  | .arr _, .obj _ => isFalse (by simp)
  | .arr e1, .arr e2 =>
      match Json.decEqElems e1 e2 with
      | isTrue h => isTrue (by rw [h])
      | isFalse h => isFalse (by intro hh; injection hh with h2; exact h h2)

def Json.decEqFields : (l1 l2 : List (String × Json)) → Decidable (l1 = l2)
  | [], [] => isTrue rfl
  | [], _ :: _ => isFalse (by simp)
  | _ :: _, [] => isFalse (by simp)
  | (k1, v1) :: r1, (k2, v2) :: r2 =>
      if hk : k1 = k2 then
        match Json.decEq v1 v2 with
        | isTrue hv =>
            match Json.decEqFields r1 r2 with
            | isTrue hr => isTrue (by rw [hk, hv, hr])
            | isFalse hr => isFalse (by intro hh; injection hh with h1 h2; exact hr h2)
        | isFalse hv => isFalse (by
            intro hh; injection hh with h1 h2; injection h1 with hk2 hv2; exact hv hv2)
      else isFalse (by
        intro hh; injection hh with h1 h2; injection h1 with hk2 hv2; exact hk hk2)

def Json.decEqElems : (l1 l2 : List Json) → Decidable (l1 = l2)
  | [], [] => isTrue rfl
  | [], _ :: _ => isFalse (by simp)
  | _ :: _, [] => isFalse (by simp)
  | v1 :: r1, v2 :: r2 =>
      match Json.decEq v1 v2 with
      | isTrue hv =>
          match Json.decEqElems r1 r2 with
          | isTrue hr => isTrue (by rw [hv, hr])
          | isFalse hr => isFalse (by intro hh; injection hh with h1 h2; exact hr h2)
      | isFalse hv => isFalse (by intro hh; injection hh with h1 h2; exact hv h1)

end

instance : DecidableEq Json := Json.decEq

/-- ApplicationContext from types/index.ts; data is an arbitrary JSON value
and none models an absent (undefined) data field. -/
structure AppCtxM where
  title : String
  data : Option Json
deriving DecidableEq

/-- A content block of a chat message.  The two tool constructors record
the fields the corresponding ToolBlock stores (the React icon element is
not modelled): toolExecuteCode carries name execute_code with input/output,
toolText2Sql carries name text2sql with the result title, the SQL as input
and the data rows as output. -/
inductive Block where
  | text (content : String)
  | markdown (content : String)
  | webSearch (content : WebSearchQueryM)
  | toolExecuteCode (input : JVal) (output : JVal)
  | toolText2Sql (title : JVal) (input : JVal) (data : List JVal)
  | json2plot (content : ChartDataSchemaM)
deriving DecidableEq, Repr

/-- ChatMessage: the externally owned message the block sinks update. -/
structure ChatMsgM where
  messageId : String
  content : List Block
  role : RoleM
  applicationContext : Option AppCtxM
deriving DecidableEq

/-- String.prototype.startsWith. -/
def jsStartsWith (s p : String) : Bool := p.data.isPrefixOf s.data

/-- The streaming-merge body of appendMarkdownBlock: if the last block is a
Markdown block whose content is empty or a proper string-prefix of the new
full text, replace it in place, otherwise append a new Markdown block. -/
def mergeMarkdownContent (blocks : List Block) (text : String) : List Block :=
  match blocks.getLast? with
  | some (.markdown c) =>
      if c = "" || jsStartsWith text c then blocks.dropLast ++ [.markdown text]
      else blocks ++ [.markdown text]
  | _ => blocks ++ [.markdown text]

/-- ChatKitBase.appendMarkdownBlock, as the pure transformation its
setState updater applies to the message list. -/
def appendMarkdownBlock (msgs : List ChatMsgM) (messageId : String) (text : String) :
    List ChatMsgM :=
  msgs.map (fun msg =>
    if msg.messageId = messageId then
      { msg with content := mergeMarkdownContent msg.content text }
    else msg)

/-- ChatKitBase.appendWebSearchBlock. -/
def appendWebSearchBlock (msgs : List ChatMsgM) (messageId : String)
    (query : WebSearchQueryM) : List ChatMsgM :=
  msgs.map (fun msg =>
    if msg.messageId = messageId then
      { msg with content := msg.content ++ [.webSearch query] }
    else msg)

/-- appendExecuteCodeBlock (AssistantBase copy of ChatKitBase). -/
def appendExecuteCodeBlock (msgs : List ChatMsgM) (messageId : String)
    (result : ExecuteCodeResultM) : List ChatMsgM :=
  msgs.map (fun msg =>
    if msg.messageId = messageId then
      { msg with content := msg.content ++ [.toolExecuteCode result.input result.output] }
    else msg)

/-- appendText2SqlBlock (AssistantBase copy of ChatKitBase). -/
def appendText2SqlBlock (msgs : List ChatMsgM) (messageId : String)
    (result : Text2SqlResultM) : List ChatMsgM :=
  msgs.map (fun msg =>
    if msg.messageId = messageId then
      { msg with content := msg.content ++ [.toolText2Sql result.title result.sql result.data] }
    else msg)

/-- appendJson2PlotBlock (AssistantBase copy of ChatKitBase). -/
def appendJson2PlotBlock (msgs : List ChatMsgM) (messageId : String)
    (chartData : ChartDataSchemaM) : List ChatMsgM :=
  msgs.map (fun msg =>
    if msg.messageId = messageId then
      { msg with content := msg.content ++ [.json2plot chartData] }
    else msg)

/-- Frame property of the shared map-update shape of the block sinks. -/
theorem updateBlocks_frame (msgs : List ChatMsgM) (mid : String)
    (f : ChatMsgM → List Block) (i : Nat)
    (hmid : msgs[i]?.map (fun m => m.messageId) ≠ some mid) :
    (msgs.map (fun msg =>
        if msg.messageId = mid then { msg with content := f msg } else msg)).length
        = msgs.length ∧
    (msgs.map (fun msg =>
        if msg.messageId = mid then { msg with content := f msg } else msg))[i]?
        = msgs[i]? ∧
    ∀ j : Nat, ((msgs.map (fun msg =>
        if msg.messageId = mid then { msg with content := f msg } else msg))[j]?.map
          (fun m => m.messageId)) = msgs[j]?.map (fun m => m.messageId) := by
  refine ⟨by simp, ?_, ?_⟩
  · rw [List.getElem?_map]
    cases hm : msgs[i]? with
    | none => rfl
    | some m =>
        rw [hm] at hmid
        simp only [Option.map_some'] at hmid
        have hid : m.messageId ≠ mid := by
          intro h
          exact hmid (by rw [h])
        simp [hid]
  · intro j
    rw [List.getElem?_map]
    cases hm : msgs[j]? with
    | none => rfl
    | some m => by_cases h : m.messageId = mid <;> simp [h]

/-! ### Claim C6: the streaming merge of appendMarkdownBlock -/

/-- Claim C6: appendMarkdownBlock with "He" and then "Hello" on a message
whose block list is initially empty ends with exactly one Markdown block
containing "Hello" (the second call replaces the first in place), not two
blocks. -/
theorem appendMarkdownBlock_streaming_merge (mid : String) (r : RoleM)
    (ac : Option AppCtxM) :
    appendMarkdownBlock (appendMarkdownBlock [⟨mid, [], r, ac⟩] mid "He") mid "Hello"
      = [⟨mid, [.markdown "Hello"], r, ac⟩] := by
  have h1 : appendMarkdownBlock [⟨mid, [], r, ac⟩] mid "He"
      = [⟨mid, [.markdown "He"], r, ac⟩] := by
    simp [appendMarkdownBlock, mergeMarkdownContent]
  rw [h1]
  simp [appendMarkdownBlock, mergeMarkdownContent,
    show jsStartsWith "Hello" "He" = true from by decide]

/-! ### Claim C10: block sinks only touch the target message -/

/-- Claim C10: each of the five block-projection operations modifies at
most the message whose messageId equals the target: the list length is
preserved, every position whose message id differs from the target is
left unchanged, and the sequence of message ids (hence the order) is
preserved at every position. -/
theorem appendBlocks_frame_property (msgs : List ChatMsgM) (mid : String)
    (t : String) (q : WebSearchQueryM) (ec : ExecuteCodeResultM)
    (ts : Text2SqlResultM) (ch : ChartDataSchemaM) (i : Nat)
    (hmid : msgs[i]?.map (fun m => m.messageId) ≠ some mid) :
    ((appendMarkdownBlock msgs mid t).length = msgs.length ∧
      (appendMarkdownBlock msgs mid t)[i]? = msgs[i]? ∧
      ∀ j : Nat, (appendMarkdownBlock msgs mid t)[j]?.map (fun m => m.messageId)
        = msgs[j]?.map (fun m => m.messageId)) ∧
    ((appendWebSearchBlock msgs mid q).length = msgs.length ∧
      (appendWebSearchBlock msgs mid q)[i]? = msgs[i]? ∧
      ∀ j : Nat, (appendWebSearchBlock msgs mid q)[j]?.map (fun m => m.messageId)
        = msgs[j]?.map (fun m => m.messageId)) ∧
    ((appendExecuteCodeBlock msgs mid ec).length = msgs.length ∧
      (appendExecuteCodeBlock msgs mid ec)[i]? = msgs[i]? ∧
      ∀ j : Nat, (appendExecuteCodeBlock msgs mid ec)[j]?.map (fun m => m.messageId)
        = msgs[j]?.map (fun m => m.messageId)) ∧
    ((appendText2SqlBlock msgs mid ts).length = msgs.length ∧
      (appendText2SqlBlock msgs mid ts)[i]? = msgs[i]? ∧
      ∀ j : Nat, (appendText2SqlBlock msgs mid ts)[j]?.map (fun m => m.messageId)
        = msgs[j]?.map (fun m => m.messageId)) ∧
    ((appendJson2PlotBlock msgs mid ch).length = msgs.length ∧
      (appendJson2PlotBlock msgs mid ch)[i]? = msgs[i]? ∧
      ∀ j : Nat, (appendJson2PlotBlock msgs mid ch)[j]?.map (fun m => m.messageId)
        = msgs[j]?.map (fun m => m.messageId)) := by
  exact ⟨updateBlocks_frame msgs mid _ i hmid, updateBlocks_frame msgs mid _ i hmid,
    updateBlocks_frame msgs mid _ i hmid, updateBlocks_frame msgs mid _ i hmid,
    updateBlocks_frame msgs mid _ i hmid⟩

/-- A fixed role used by concrete witnesses. -/
def roleA : RoleM := ⟨"AI assistant", .assistant, ""⟩

/-- Witness for claim C10 at a concrete two-message list. -/
theorem appendBlocks_frame_property_witness :
    ([(⟨"a", [], roleA, none⟩ : ChatMsgM), ⟨"b", [], roleA, none⟩][0]?.map
        (fun m => m.messageId) ≠ some "b") ∧
    ((appendMarkdownBlock [⟨"a", [], roleA, none⟩, ⟨"b", [], roleA, none⟩] "b" "x").length = 2 ∧
      (appendMarkdownBlock [⟨"a", [], roleA, none⟩, ⟨"b", [], roleA, none⟩] "b" "x")[0]?
        = [(⟨"a", [], roleA, none⟩ : ChatMsgM), ⟨"b", [], roleA, none⟩][0]?) := by
  constructor
  · decide
  · have h := appendBlocks_frame_property
      [⟨"a", [], roleA, none⟩, ⟨"b", [], roleA, none⟩] "b" "x"
      ⟨.prim .jnull, []⟩ ⟨.prim .jnull, .prim .jnull⟩
      ⟨.prim .jnull, .prim .jnull, [], [], .prim .jnull, .prim .jnull, none, .prim .jnull⟩
      ⟨"Line", .prim .jnull, [], [], []⟩ 0 (by decide)
    exact ⟨h.1.1, h.1.2.1⟩

/-! ### Claim C3: SSE frame decoding and chunk boundaries -/

/-- String.prototype.trim, on character lists (the four ASCII whitespace
characters cover everything this code ever feeds it). -/
def trimChars (cs : List Char) : List Char :=
  ((cs.dropWhile Char.isWhitespace).reverse.dropWhile Char.isWhitespace).reverse

/-- String.prototype.split with separator newline: the list of segments
between newline characters (JS semantics: a trailing newline yields a
trailing empty segment). -/
def splitNl : List Char → List (List Char)
  | [] => [[]]
  | c :: rest =>
      match splitNl rest with
      | [] => if c = '\n' then [[], []] else [[c]]
      | l :: ls => if c = '\n' then [] :: l :: ls else (c :: l) :: ls

/-- One decoded SSE frame: the event type in effect and the trimmed data
payload. -/
structure FrameM where
  event : List Char
  data : List Char
deriving DecidableEq, Repr

/-- Processing of one complete line by the FIRST copy of
handleStreamResponse (ChatKitBase.tsx lines 236-316): an event line sets
the current event type; a data line with payload [DONE] is discarded; a
data line whose JSON parses yields a frame whose event type is the pending
event type, or the payload's own event/type field when none is pending
(modelled by the parameter pe), and resets the pending type; a data line
whose JSON fails to parse is skipped and leaves the pending type alone.
jsonOk abstracts JSON.parse success. -/
def processLineNoCarry (pe : List Char → List Char) (jsonOk : List Char → Bool)
    (st : List Char × List FrameM) (line : List Char) : List Char × List FrameM :=
  if ("event:".data).isPrefixOf line then
    (trimChars (line.drop 6), st.2)
  else if ("data:".data).isPrefixOf line then
    let ds := trimChars (line.drop 5)
    if ds = "[DONE]".data then st
    else if jsonOk ds then
      let ev := if st.1 ≠ [] then st.1 else pe ds
      ([], st.2 ++ [⟨ev, ds⟩])
    else st
  else st

/-- The frame-decoding loop of the FIRST copy of handleStreamResponse:
each chunk is split on newline IN ISOLATION (no carry-over buffer is kept
between chunks), whitespace-only segments are filtered out, and each
remaining line is processed. -/
def framesNoCarry (pe : List Char → List Char) (jsonOk : List Char → Bool)
    (chunks : List (List Char)) : List FrameM :=
  (chunks.foldl
      (fun st chunk =>
        ((splitNl chunk).filter (fun l => !(trimChars l).isEmpty)).foldl
          (processLineNoCarry pe jsonOk) st)
      ([], [])).2

/-- A concrete stand-in for JSON.parse success consistent with JSON syntax
on the strings exercised by the counterexample: the complete payload
parses, the truncated half-payload does not. -/
def jsonOkC3 (cs : List Char) : Bool := cs = "\x7b\"x\":1\x7d".data

/-- A concrete stand-in for reading the event/type field of a parsed
payload (the payload of the counterexample has none, giving the empty
string). -/
def peC3 (cs : List Char) : List Char := []

/-- Claim C3 (code bug): the same byte stream, delivered as one chunk or
split in the middle of the data line, decodes to DIFFERENT frame
sequences in the first copy of handleStreamResponse, because that copy
keeps no carry-over buffer between chunks: the single-chunk delivery
yields one frame while the split delivery yields none.  The specification
(and the second copy of handleStreamResponse, which keeps a carry-over
buffer) requires the decoded frame sequence to be independent of chunk
boundaries. -/
theorem framesNoCarry_chunking_dependent :
    ("data: \x7b\"x\":1\x7d\n".data
        = "data: \x7b\"x\"".data ++ ":1\x7d\n".data) ∧
    framesNoCarry peC3 jsonOkC3 ["data: \x7b\"x\":1\x7d\n".data]
        = [⟨[], "\x7b\"x\":1\x7d".data⟩] ∧
    framesNoCarry peC3 jsonOkC3 ["data: \x7b\"x\"".data, ":1\x7d\n".data] = [] ∧
    framesNoCarry peC3 jsonOkC3 ["data: \x7b\"x\":1\x7d\n".data]
        ≠ framesNoCarry peC3 jsonOkC3 ["data: \x7b\"x\"".data, ":1\x7d\n".data] := by
  refine ⟨by decide, by decide, by decide, by decide⟩

/-! ### Claim C9: send rejects blank input -/

/-- The component state fields touched by ChatKitBase.send. -/
structure CKState where
  messages : List ChatMsgM
  conversationID : String
  applicationContext : Option AppCtxM
  isSending : Bool
  textInput : String
  streamingMessageId : Option String
deriving DecidableEq

/-- The outward calls send makes to the vendor adapter, in order. -/
inductive SendEffect where
  | generateConversationCall
  | sendMessageCall (text : String) (ctxTitle : String) (conversationID : String)
deriving DecidableEq, Repr

/-- The error send can throw. -/
inductive SendErr where
  | blankInput
  | transport (e : ErrM)
deriving DecidableEq, Repr

/-- Outcomes of the adapter calls send awaits, plus ambient inputs (the
default context prop and Date.now). -/
structure SendDeps where
  genConv : Except ErrM String
  sendResult : Except ErrM ChatMsgM
  defaultApplicationContext : Option AppCtxM
  now : Nat

/-- String.prototype.trim. -/
def jsTrim (s : String) : String := ⟨trimChars s.data⟩

/-- JS truthiness of the ApplicationContext data field. -/
def dataTruthy : Option Json → Bool
  | none => false
  | some .null => false
  | some (.str s) => !(s = "")
  | some (.num n) => !(n = 0)
  | some (.bool b) => b
  | some (.obj _) => true
  | some (.arr _) => true

/-- ChatKitBase.send, with the awaited adapter calls replaced by their
outcomes and the setState updates applied synchronously in program order.
Returns the final state, the ordered adapter calls made, and the result or
thrown error.  (The state mutations sendMessage itself performs inside the
subclass are behind the sendResult oracle and are not part of this
state.) -/
def send (deps : SendDeps) (st : CKState) (text : String) (ctx : Option AppCtxM)
    (conversationID : Option String) :
    CKState × List SendEffect × Except SendErr ChatMsgM :=
  if jsTrim text = "" then (st, [], .error .blankInput)
  else
    let st1 := match ctx with
      | some c => { st with applicationContext := some c }
      | none => st
    let cid0 := match conversationID with
      | some c => if c = "" then st1.conversationID else c
      | none => st1.conversationID
    let auto :=
      if cid0 = "" then
        match deps.genConv with
        | .ok newCid =>
            ({ st1 with conversationID := newCid },
              [SendEffect.generateConversationCall], newCid)
        | .error _ => (st1, [SendEffect.generateConversationCall], cid0)
      else (st1, ([] : List SendEffect), cid0)
    let st3 := { auto.1 with isSending := true }
    let fc := match ctx with
      | some c => c
      | none =>
          match st3.applicationContext with
          | some c => c
          | none =>
              match deps.defaultApplicationContext with
              | some c => c
              | none => ⟨"", some (.obj [])⟩
    let userMessage : ChatMsgM :=
      { messageId := "user-" ++ toString deps.now
        content := [.text text]
        role := ⟨"用户", .user, ""⟩
        applicationContext :=
          if fc.title ≠ "" ∨ dataTruthy fc.data then some fc else none }
    let st4 := { st3 with messages := st3.messages ++ [userMessage] }
    let effs := auto.2.1 ++ [SendEffect.sendMessageCall text fc.title auto.2.2]
    match deps.sendResult with
    | .ok am =>
        ({ st4 with textInput := "", isSending := false, streamingMessageId := none },
          effs, .ok am)
    | .error e =>
        ({ st4 with isSending := false, streamingMessageId := none },
          effs, .error (.transport e))

/-- Claim C9: for every input whose trim is empty, send throws before
creating a conversation, before appending any user message and before
invoking the adapter's sendMessage: the state is returned unchanged and
the list of adapter calls is empty. -/
theorem send_rejects_blank_input (deps : SendDeps) (st : CKState) (text : String)
    (ctx : Option AppCtxM) (conversationID : Option String)
    (h : jsTrim text = "") :
    send deps st text ctx conversationID = (st, [], .error .blankInput) := by
  unfold send
  rw [if_pos h]

/-- A concrete dependency record for the C9 witness. -/
def sendDeps0 : SendDeps :=
  ⟨.ok "c1", .error ⟨500, 0⟩, none, 0⟩

/-- A concrete starting state for the C9 witness. -/
def ckState0 : CKState := ⟨[], "", none, false, "", none⟩

/-- Witness for claim C9 at the whitespace-only input. -/
theorem send_rejects_blank_input_witness :
    jsTrim " \t " = "" ∧
    send sendDeps0 ckState0 " \t " none none = (ckState0, [], .error .blankInput) :=
  ⟨by decide, send_rejects_blank_input sendDeps0 ckState0 " \t " none none (by decide)⟩

/-! ### Patch contents, cloning and the whitelist router -/

mutual

/-- Allocate the object JSON.parse would build for a pure JSON value. -/
def allocJson : Store → Json → Store × JVal
  | s, .null => (s, .prim .jnull)
  | s, .str t => (s, .prim (.jstr t))
  | s, .num n => (s, .prim (.jnum n))
  | s, .bool b => (s, .prim (.jbool b))
  | s, .obj fields =>
      let r := allocJsonFields s fields
      let r2 := allocStore r.1 (.obj r.2)
      (r2.1, .ref r2.2)
  | s, .arr elems =>
      let r := allocJsonElems s elems
      let r2 := allocStore r.1 (.arr r.2)
      (r2.1, .ref r2.2)

def allocJsonFields : Store → List (String × Json) → Store × List (String × JVal)
  | s, [] => (s, [])
  | s, (k, j) :: rest =>
      let r := allocJson s j
      let r2 := allocJsonFields r.1 rest
      (r2.1, (k, r.2) :: r2.2)

def allocJsonElems : Store → List Json → Store × List JVal
  | s, [] => (s, [])
  | s, j :: rest =>
      let r := allocJson s j
      let r2 := allocJsonElems r.1 rest
      (r2.1, r.2 :: r2.2)

end

mutual

/-- JSON.parse(JSON.stringify(v)): a deep copy allocating fresh nodes.
Stringify drops object fields whose value is undefined and serializes
undefined array elements as null; a cyclic value makes stringify throw,
modelled by the fuel running out (none). -/
def deepCloneVal : Nat → Store → JVal → Option (Store × JVal)
  | 0, _, _ => none
  | _ + 1, _, .prim .jundef => none
  | _ + 1, s, .prim p => some (s, .prim p)
  | fuel + 1, s, .ref a =>
      match lookupStore s a with
      | some (.obj fields) =>
          match deepCloneFields fuel s fields with
          | some (s1, fs) =>
              let r := allocStore s1 (.obj fs)
              some (r.1, .ref r.2)
          | none => none
      | some (.arr elems) =>
          match deepCloneElems fuel s elems with
          | some (s1, es) =>
              let r := allocStore s1 (.arr es)
              some (r.1, .ref r.2)
          | none => none
      | none => none

def deepCloneFields : Nat → Store → List (String × JVal) →
    Option (Store × List (String × JVal))
  | 0, _, _ => none
  | _ + 1, s, [] => some (s, [])
  | fuel + 1, s, (k, v) :: rest =>
      if v = .prim .jundef then deepCloneFields fuel s rest
      else
        match deepCloneVal fuel s v with
        | some (s1, v2) =>
            match deepCloneFields fuel s1 rest with
            | some (s2, fs) => some (s2, (k, v2) :: fs)
            | none => none
        | none => none

def deepCloneElems : Nat → Store → List JVal → Option (Store × List JVal)
  | 0, _, _ => none
  | _ + 1, s, [] => some (s, [])
  | fuel + 1, s, v :: rest =>
      match deepCloneVal fuel s (if v = .prim .jundef then .prim .jnull else v) with
      | some (s1, v2) =>
          match deepCloneElems fuel s1 rest with
          | some (s2, es) => some (s2, v2 :: es)
          | none => none
      | none => none

end

/-- One segment of keyToJSONPath: numbers render as a bracketed index,
strings after the first position get a leading dot. -/
def keySegment (i : Nat) (k : JKey) : String :=
  match k with
  | .idx n => "[" ++ toString n ++ "]"
  | .str s => if i = 0 then s else "." ++ s

/-- The global replace of dot-bracket by bracket performed at the end of
keyToJSONPath. -/
def replaceDotBracket : List Char → List Char
  | [] => []
  | '.' :: '[' :: rest => '[' :: replaceDotBracket rest
  | c :: rest => c :: replaceDotBracket rest

/-- DIPBase.keyToJSONPath: render the key array in dotted/bracket form. -/
def keyToJSONPath (key : List JKey) : String :=
  ⟨replaceDotBracket (String.join (key.enum.map
      (fun p => keySegment p.1 p.2))).data⟩

/-- Strip the given leading characters, returning the remainder. -/
def stripPre : List Char → List Char → Option (List Char)
  | cs, [] => some cs
  | [], _ :: _ => none
  | c :: cs, p :: ps => if c = p then stripPre cs ps else none

/-- Test that the characters are one or more decimal digits followed by a
closing bracket and exactly the given suffix. -/
def idxThen (cs : List Char) (suffix : List Char) : Bool :=
  let ds := cs.takeWhile Char.isDigit
  decide (ds ≠ []) && decide (cs.drop ds.length = ']' :: suffix)

/-- The progress array regex of getWhitelistEntry:
caret message backslash-dot content ... progress bracket digits bracket
dollar. -/
def testProgressIdxPath (jsonPath : String) : Bool :=
  match stripPre jsonPath.data "message.content.middle_answer.progress[".data with
  | some rest => idxThen rest []
  | none => false

/-- The progress answer regex of getWhitelistEntry: the same with a
trailing dot answer. -/
def testProgressIdxAnswerPath (jsonPath : String) : Bool :=
  match stripPre jsonPath.data "message.content.middle_answer.progress[".data with
  | some rest => idxThen rest ".answer".data
  | none => false

/-- The whitelist entries of DIPBase.getWhitelistEntry, identified by their
postProcess behavior; silent covers the entries with no postProcess. -/
inductive WLEntry where
  | silent
  | finalAnswerText
  | answerTypeOther
  | progressBase
  | progressAnswer
deriving DecidableEq, Repr

/-- DIPBase.getWhitelistEntry: the two progress regex families are tested
first, then the exact action-colon-path table. -/
def getWhitelistEntry (action : String) (jsonPath : String) : Option WLEntry :=
  if action = "append" && testProgressIdxPath jsonPath then some .progressBase
  else if action = "append" && testProgressIdxAnswerPath jsonPath then some .progressAnswer
  else if action = "upsert" && jsonPath = "error" then some .silent
  else if action = "upsert" && jsonPath = "message" then some .silent
  else if action = "append" && jsonPath = "message.content.final_answer.answer.text" then
    some .finalAnswerText
  else if action = "upsert" && jsonPath = "message.content.final_answer.answer_type_other" then
    some .answerTypeOther
  else if action = "append" && jsonPath = "message.content.middle_answer.progress" then
    some .progressBase
  else none

/-! ### Payload readers and the per-skill extraction functions -/

/-- Property read by field name. -/
def propS (s : Store) (v : JVal) (name : String) : JVal := getProp s v (.str name)

/-- The value of (x or-else y) in JS: x when truthy, else y. -/
def truthyOr (v w : JVal) : JVal := if truthy v then v else w

/-- The empty string value, the usual or-else default. -/
def emptyStrV : JVal := .prim (.jstr "")

/-- Reading a value that the code then uses as a string (x or-else empty
string fed to a markdown sink).  Non-string truthy values are not
exercised by the whitelisted payloads and read as empty here. -/
def strOrEmpty : JVal → String
  | .prim (.jstr s) => s
  | _ => ""

/-- JS template-literal rendering of a value, as used for the tool name.
The object case is the standard object-to-string form; payloads only ever
put strings here. -/
def jsTemplateStr : JVal → String
  | .prim (.jstr s) => s
  | .prim (.jnum n) => toString n
  | .prim (.jbool b) => if b then "true" else "false"
  | .prim .jnull => "null"
  | .prim .jundef => "undefined"
  | .ref _ => "[object Object]"

/-- Array.isArray combined with reading the elements. -/
def asArr (s : Store) (v : JVal) : Option (List JVal) :=
  match v with
  | .ref a =>
      match lookupStore s a with
      | some (.arr es) => some es
      | _ => none
  | _ => none

/-- The shared body of extractWebSearchQuery and
extractWebSearchQueryFromAnswer (the source duplicates it verbatim):
tool_calls[0] carries the search intent, tool_calls[1] the result list. -/
def webSearchFromToolCalls (s : Store) (toolCalls : JVal) : Option WebSearchQueryM :=
  match asArr s toolCalls with
  | none => none
  | some tcs =>
      if tcs.length < 2 then none
      else
        let searchIntentObj := arrGet tcs 0
        let siA := propS s searchIntentObj "search_intent"
        let searchIntent :=
          match asArr s siA with
          | some es => arrGet es 0
          | none => siA
        let query := truthyOr (propS s searchIntent "query")
          (truthyOr (propS s searchIntent "keywords") emptyStrV)
        let searchResultObj := arrGet tcs 1
        match asArr s (propS s searchResultObj "search_result") with
        | none => none
        | some srs =>
            some ⟨query, srs.map (fun item =>
              ⟨truthyOr (propS s item "content") emptyStrV,
               truthyOr (propS s item "icon") emptyStrV,
               truthyOr (propS s item "link") emptyStrV,
               truthyOr (propS s item "media") emptyStrV,
               truthyOr (propS s item "title") emptyStrV⟩)⟩

/-- DIPBase.extractWebSearchQuery: reads
progress.answer.choices[0].message.tool_calls. -/
def extractWebSearchQuery (s : Store) (progress : JVal) : Option WebSearchQueryM :=
  webSearchFromToolCalls s (getNestedProperty s progress
    [.str "answer", .str "choices", .idx 0, .str "message", .str "tool_calls"])

/-- DIPBase.extractWebSearchQueryFromAnswer: the same starting from the
answer value. -/
def extractWebSearchQueryFromAnswer (s : Store) (answer : JVal) : Option WebSearchQueryM :=
  webSearchFromToolCalls s (getNestedProperty s answer
    [.str "choices", .idx 0, .str "message", .str "tool_calls"])

/-- DIPBase.inferDataType; dp abstracts whether new Date(string) parses. -/
def inferDataType (dp : String → Bool) : JVal → DataType
  | .prim (.jbool _) => .boolean
  | .prim (.jnum _) => .number
  | .prim (.jstr t) => if dp t then .date else .string
  | _ => .string

/-- Object.entries of a node (for an array, index keys in order). -/
def entriesOf : JNode → List (String × JVal)
  | .obj fields => fields
  | .arr elems => (List.range elems.length).map (fun i => (toString i, arrGet elems i))

/-- The dimensions pushed from xField, groupField and seriesField: each
must be truthy, distinct from the earlier fields, and present (not
undefined) in the first data row. -/
def chartDims (dp : String → Bool) (s : Store) (cc fr : JVal) : List DimensionM :=
  let frRead := fun (fv : JVal) => propS s fr (jsTemplateStr fv)
  let dimOf := fun (fv : JVal) =>
    (⟨jsTemplateStr fv, jsTemplateStr fv, inferDataType dp (frRead fv)⟩ : DimensionM)
  let xv := propS s cc "xField"
  let gv := propS s cc "groupField"
  let sv := propS s cc "seriesField"
  (if truthy xv && !(frRead xv == JVal.prim .jundef) then [dimOf xv] else []) ++
  (if truthy gv && !(gv == xv) && !(frRead gv == JVal.prim .jundef)
    then [dimOf gv] else []) ++
  (if truthy sv && !(sv == xv) && !(sv == gv) && !(frRead sv == JVal.prim .jundef)
    then [dimOf sv] else [])

/-- The measure pushed from yField when it is truthy and present in the
first data row; its dataType is always number. -/
def chartMeas (s : Store) (cc fr : JVal) : List MeasureM :=
  let yv := propS s cc "yField"
  if truthy yv && !(propS s fr (jsTemplateStr yv) == JVal.prim .jundef)
    then [⟨jsTemplateStr yv, jsTemplateStr yv, .number⟩] else []

/-- The Map of field name to inferred type built from Object.entries of
the first row, skipping null and undefined values. -/
def chartFieldTypes (dp : String → Bool) (frn : JNode) : List (String × DataType) :=
  (entriesOf frn).filterMap (fun p =>
    if p.2 == JVal.prim .jnull || p.2 == JVal.prim .jundef then none
    else some (p.1, inferDataType dp p.2))

/-- The dimension list after the fallback: when no field-based dimension
was found, the first non-number field not already used as a measure. -/
def chartDimsF (dp : String → Bool) (s : Store) (cc fr : JVal) (frn : JNode) :
    List DimensionM :=
  let dims := chartDims dp s cc fr
  let meas1 := chartMeas s cc fr
  dims ++ (if dims.isEmpty then
      match (chartFieldTypes dp frn).find? (fun p =>
          !(p.2 == DataType.number) && (meas1.find? (fun m => m.name == p.1)).isNone) with
      | some p => [(⟨p.1, p.1, p.2⟩ : DimensionM)]
      | none => []
    else [])

/-- The measure list after the fallback: when yField produced nothing, the
first number field not already used as a dimension (checked against the
dimension list AFTER its own fallback, as the source does). -/
def chartMeasF (dp : String → Bool) (s : Store) (cc fr : JVal) (frn : JNode) :
    List MeasureM :=
  let meas1 := chartMeas s cc fr
  meas1 ++ (if meas1.isEmpty then
      match (chartFieldTypes dp frn).find? (fun p =>
          (p.2 == DataType.number) &&
          ((chartDimsF dp s cc fr frn).find? (fun d => d.name == p.1)).isNone) with
      | some p => [(⟨p.1, p.1, .number⟩ : MeasureM)]
      | none => []
    else [])

/-- The common chart-construction body of extractJson2PlotData and
extractChartDataFromArgs (identical in the source from the chart_config
read onward): validate the chart type, pick the data rows, build the
dimensions and measures as above, and give up unless both are
non-empty. -/
def buildChartData (dp : String → Bool) (s : Store) (jd : JVal) : Option ChartDataSchemaM :=
  let cc := propS s jd "chart_config"
  if !truthy cc || !truthy (propS s cc "chart_type") then none
  else
    match propS s cc "chart_type" with
    | .prim (.jstr ct) =>
        if !(["Line", "Column", "Pie", "Circle"].contains ct) then none
        else
          let dval := truthyOr (propS s jd "data") (propS s jd "data_sample")
          match asArr s dval with
          | none => none
          | some [] => none
          | some rows =>
              match arrGet rows 0 with
              | .ref fa =>
                  match lookupStore s fa with
                  | none => none
                  | some frn =>
                      let cc2 := propS s jd "chart_config"
                      let dimsF := chartDimsF dp s cc2 (arrGet rows 0) frn
                      let measF := chartMeasF dp s cc2 (arrGet rows 0) frn
                      if dimsF.isEmpty || measF.isEmpty then none
                      else some ⟨ct, propS s jd "title", dimsF, measF, rows⟩
              | _ => none
    | _ => none

/-- DIPBase.extractJson2PlotData: locate the tool call carrying a result
or full_result in answer.choices[0].message.tool_calls, prefer
full_result, and build the chart. -/
def extractJson2PlotData (dp : String → Bool) (s : Store) (progress : JVal) :
    Option ChartDataSchemaM :=
  match asArr s (getNestedProperty s progress
      [.str "answer", .str "choices", .idx 0, .str "message", .str "tool_calls"]) with
  | none => none
  | some tcs =>
      match tcs.find? (fun tc =>
          truthy (propS s tc "result") || truthy (propS s tc "full_result")) with
      | none => none
      | some j2a =>
          let jd := truthyOr (propS s j2a "full_result") (propS s j2a "result")
          if !truthy jd then none
          else buildChartData dp s jd

/-- DIPBase.extractChartDataFromArgs: the args are unused (kept for API
consistency in the source too); the chart comes from answer.full_result or
answer.result. -/
def extractChartDataFromArgs (dp : String → Bool) (s : Store) (args : JVal)
    (answer : JVal) : Option ChartDataSchemaM :=
  let jd := truthyOr (propS s answer "full_result") (propS s answer "result")
  if !truthy jd then none
  else buildChartData dp s jd

/-- DIPBase.extractExecuteCodeResult. -/
def extractExecuteCodeResult (s : Store) (args : JVal) (answer : JVal) :
    Option ExecuteCodeResultM :=
  let codeInput :=
    match asArr s args with
    | some es =>
        match es.find? (fun arg =>
            propS s arg "name" == JVal.prim (.jstr "code") ||
            propS s arg "name" == JVal.prim (.jstr "script") ||
            propS s arg "type" == JVal.prim (.jstr "str")) with
        | some codeArg => truthyOr (propS s codeArg "value") emptyStrV
        | none => emptyStrV
    | none => emptyStrV
  let codeOutput := truthyOr
    (getNestedProperty s answer [.str "result", .str "result", .str "stdout"])
    (.prim (.jstr "执行完成"))
  if !truthy codeInput then none
  else some ⟨codeInput, codeOutput⟩

/-- DIPBase.extractText2SqlResult: prefer full_result over result,
data_desc only ever comes from result. -/
def extractText2SqlResult (s : Store) (args : JVal) (answer : JVal) :
    Option Text2SqlResultM :=
  let queryInput :=
    match asArr s args with
    | some es =>
        match es.find? (fun arg => propS s arg "name" == JVal.prim (.jstr "input")) with
        | some inputArg => truthyOr (propS s inputArg "value") emptyStrV
        | none => emptyStrV
    | none => emptyStrV
  let fullResult := propS s answer "full_result"
  let result := propS s answer "result"
  if !truthy fullResult && !truthy result then none
  else
    let td := truthyOr fullResult result
    let sql := truthyOr (propS s td "sql") emptyStrV
    let dataRows := match asArr s (propS s td "data") with
      | some l => l
      | none => []
    let cites := match asArr s (propS s td "cites") with
      | some l => l.map (fun cite =>
          (⟨truthyOr (propS s cite "id") emptyStrV,
            truthyOr (propS s cite "name") emptyStrV,
            truthyOr (propS s cite "type") emptyStrV,
            propS s cite "description"⟩ : CiteM))
      | none => []
    let title := truthyOr (propS s td "title") emptyStrV
    let message := truthyOr (propS s td "message") emptyStrV
    let explanation := propS s td "explanation"
    let dataDesc :=
      let dd := propS s result "data_desc"
      if truthy dd then
        some (⟨propS s dd "return_records_num", propS s dd "real_records_num"⟩ : DataDescM)
      else none
    if !truthy queryInput then none
    else some ⟨queryInput, sql, dataRows, cites, title, message, dataDesc, explanation⟩

/-! ### The block projectors behind the whitelist entries -/

/-- DIPBase.processSkillExecution: dispatch on skill_info.name. -/
def processSkillExecution (dp : String → Bool) (s : Store) (skillInfo answer : JVal)
    (mid : String) (msgs : List ChatMsgM) : List ChatMsgM :=
  let nameV := propS s skillInfo "name"
  if !truthy nameV then msgs
  else if nameV == JVal.prim (.jstr "zhipu_search_tool") then
    match extractWebSearchQueryFromAnswer s answer with
    | some q => appendWebSearchBlock msgs mid q
    | none => msgs
  else if nameV == JVal.prim (.jstr "json2plot") then
    match extractChartDataFromArgs dp s (propS s skillInfo "args") answer with
    | some c => appendJson2PlotBlock msgs mid c
    | none => msgs
  else if nameV == JVal.prim (.jstr "execute_code") then
    match extractExecuteCodeResult s (propS s skillInfo "args") answer with
    | some r => appendExecuteCodeBlock msgs mid r
    | none => msgs
  else if nameV == JVal.prim (.jstr "text2sql") then
    match extractText2SqlResult s (propS s skillInfo "args") answer with
    | some r => appendText2SqlBlock msgs mid r
    | none => msgs
  else appendMarkdownBlock msgs mid ("调用工具: " ++ jsTemplateStr nameV)

/-- DIPBase.processMiddleAnswerProgress. -/
def processMiddleAnswerProgress (dp : String → Bool) (s : Store) (content : JVal)
    (mid : String) (msgs : List ChatMsgM) : List ChatMsgM :=
  if propS s content "stage" == JVal.prim (.jstr "skill") then
    processSkillExecution dp s (propS s content "skill_info")
      (propS s content "answer") mid msgs
  else if propS s content "stage" == JVal.prim (.jstr "llm") then
    appendMarkdownBlock msgs mid (strOrEmpty (propS s content "answer"))
  else msgs

/-- DIPBase.processFinalAnswerTypeOther. -/
def processFinalAnswerTypeOther (dp : String → Bool) (s : Store) (content : JVal)
    (mid : String) (msgs : List ChatMsgM) : List ChatMsgM :=
  if propS s content "stage" == JVal.prim (.jstr "skill") then
    processSkillExecution dp s (propS s content "skill_info")
      (propS s content "answer") mid msgs
  else msgs

/-- The postProcess closure of the progress whitelist entry: the inline
skill dispatch (web search, json2plot, text2sql off the patch content),
the llm markdown path, and then the unconditional call to
processMiddleAnswerProgress. -/
def postProgressBase (dp : String → Bool) (s : Store) (content : JVal)
    (mid : String) (msgs : List ChatMsgM) : List ChatMsgM :=
  let si := propS s content "skill_info"
  let nm := propS s si "name"
  let msgs1 :=
    if propS s content "stage" == JVal.prim (.jstr "skill") then
      let m1 := if nm == JVal.prim (.jstr "zhipu_search_tool") then
          match extractWebSearchQuery s content with
          | some q => appendWebSearchBlock msgs mid q
          | none => msgs
        else msgs
      let m2 := if nm == JVal.prim (.jstr "json2plot") then
          match extractJson2PlotData dp s content with
          | some c => appendJson2PlotBlock m1 mid c
          | none => m1
        else m1
      let m3 := if nm == JVal.prim (.jstr "text2sql") then
          match extractText2SqlResult s (propS s si "args") (propS s content "answer") with
          | some r => appendText2SqlBlock m2 mid r
          | none => m2
        else m2
      m3
    else if propS s content "stage" == JVal.prim (.jstr "llm") then
      appendMarkdownBlock msgs mid (strOrEmpty (propS s content "answer"))
    else msgs
  processMiddleAnswerProgress dp s content mid msgs1

/-- The postProcess closure of the progress-answer regex entry: read the
last progress entry from the freshly patched tree and, when it is an llm
entry, merge its answer into the markdown stream. -/
def postProgressAnswer (s : Store) (tree : JVal) (mid : String)
    (msgs : List ChatMsgM) : List ChatMsgM :=
  match asArr s (getNestedProperty s tree progressPath) with
  | some es =>
      match es.getLast? with
      | some last =>
          if propS s last "stage" == JVal.prim (.jstr "llm") then
            appendMarkdownBlock msgs mid (strOrEmpty (propS s last "answer"))
          else msgs
      | none => msgs
  | none => msgs

/-- Dispatch of a whitelist entry's postProcess. -/
def runPost (dp : String → Bool) :
    WLEntry → Store → JVal → JVal → String → List ChatMsgM → List ChatMsgM
  | .silent, _, _, _, _, msgs => msgs
  | .finalAnswerText, s, tree, _, mid, msgs =>
      appendMarkdownBlock msgs mid (strOrEmpty (getNestedProperty s tree
        [.str "message", .str "content", .str "final_answer", .str "answer", .str "text"]))
  | .answerTypeOther, s, _, content, mid, msgs =>
      processFinalAnswerTypeOther dp s content mid msgs
  | .progressBase, s, _, content, mid, msgs =>
      postProgressBase dp s content mid msgs
  | .progressAnswer, s, tree, _, mid, msgs =>
      postProgressAnswer s tree mid msgs

/-! ### The reducer -/

/-- One parsed EventMessage; none content models an absent field. -/
structure EventMessageM where
  key : List JKey
  action : String
  content : Option Json

/-- DIPBase.reduceAssistantMessage: an end action and a non-whitelisted
patch return prev untouched; otherwise prev is deep-cloned, the patch is
applied by applyUpsert or applyAppend, and the entry's postProcess updates
the message list.  A JS exception anywhere inside the body is caught and
prev is returned, with the heap mutations made so far kept (they are only
ever on fresh nodes).  fuel bounds the deep clone (JS throws only on
cyclic values; every theorem below holds for every fuel). -/
def reduceAssistantMessage (dp : String → Bool) (fuel : Nat) (em : EventMessageM)
    (s : Store) (prev : JVal) (mid : String) (msgs : List ChatMsgM) :
    Store × JVal × List ChatMsgM :=
  if em.action = "end" then (s, prev, msgs)
  else
    match getWhitelistEntry em.action (keyToJSONPath em.key) with
    | none => (s, prev, msgs)
    | some entry =>
        let cloneResult :=
          if truthy prev then deepCloneVal fuel s prev
          else
            let r := allocStore s (.obj [])
            some (r.1, JVal.ref r.2)
        match cloneResult with
        | none => (s, prev, msgs)
        | some (s1, am0) =>
            let r2 := match em.content with
              | some j => allocJson s1 j
              | none => (s1, JVal.prim .jundef)
            let ar :=
              if em.action = "upsert" then applyUpsert r2.1 am0 em.key r2.2
              else if em.action = "append" then applyAppend r2.1 am0 em.key r2.2
              else (r2.1, am0, true)
            if ar.2.2 = false then (ar.1, prev, msgs)
            else (ar.1, ar.2.1, runPost dp entry ar.1 ar.2.1 r2.2 mid msgs)

/-- The date oracle that parses nothing; used for concrete runs that never
reach inferDataType. -/
def noDate : String → Bool := fun _ => false

/-! ### Claim C2: non-whitelisted patches -/

/-- A patch whose action and rendered path are in no whitelist entry. -/
def emC2 : EventMessageM := ⟨[.str "foo"], "upsert", some (.str "x")⟩

/-- Claim C2 (counterexample): a non-whitelisted patch is NOT applied to
the tree: reduceAssistantMessage returns prev and the store untouched, so
the returned tree does not reflect the upsert of "x" at foo (the read of
foo stays undefined), contrary to the claim that the tree is mutated with
zero block calls. -/
theorem reduce_nonwhitelist_counterexample :
    getWhitelistEntry emC2.action (keyToJSONPath emC2.key) = none ∧
    reduceAssistantMessage noDate 8 emC2 store1 (.ref 0) "m" [] = (store1, .ref 0, []) ∧
    getNestedProperty
      (reduceAssistantMessage noDate 8 emC2 store1 (.ref 0) "m" []).1
      (reduceAssistantMessage noDate 8 emC2 store1 (.ref 0) "m" []).2.1
      [.str "foo"] = .prim .jundef := by
  refine ⟨by decide, by decide, by decide⟩

/-- Claim C2 (amended): a patch whose action and rendered key path match
neither the exact whitelist table nor the progress regex families is
skipped entirely: the reducer returns the previous tree value with the
store untouched and performs zero append-block calls (the message list is
returned unchanged). -/
theorem reduce_nonwhitelist_skips (dp : String → Bool) (fuel : Nat)
    (em : EventMessageM) (s : Store) (prev : JVal) (mid : String)
    (msgs : List ChatMsgM)
    (h : getWhitelistEntry em.action (keyToJSONPath em.key) = none) :
    reduceAssistantMessage dp fuel em s prev mid msgs = (s, prev, msgs) := by
  unfold reduceAssistantMessage
  by_cases he : em.action = "end"
  · rw [if_pos he]
  · rw [if_neg he, h]

/-- Witness for the amended claim C2 at a concrete non-whitelisted
patch. -/
theorem reduce_nonwhitelist_skips_witness :
    getWhitelistEntry emC2.action (keyToJSONPath emC2.key) = none ∧
    reduceAssistantMessage noDate 9 emC2 store1 (.ref 0) "m2" [] = (store1, .ref 0, []) :=
  ⟨by decide, reduce_nonwhitelist_skips noDate 9 emC2 store1 (.ref 0) "m2" [] (by decide)⟩

/-! ### Claim C7: the two-patch progress scenario -/

/-- The first scenario patch: append a whole progress entry at index 0. -/
def emC7a : EventMessageM :=
  ⟨[.str "message", .str "content", .str "middle_answer", .str "progress", .idx 0],
    "append", some (.obj [("stage", .str "llm"), ("answer", .str "42")])⟩

/-- The second scenario patch: append the answer text of progress[0]. -/
def emC7b : EventMessageM :=
  ⟨[.str "message", .str "content", .str "middle_answer", .str "progress", .idx 0,
      .str "answer"],
    "append", some (.str "42")⟩

/-- The message list before the scenario: one assistant message with an
empty block list. -/
def msgsC7 : List ChatMsgM := [⟨"m1", [], roleA, none⟩]

set_option maxHeartbeats 4000000 in
/-- Claim C7: starting from the empty tree, the patch appending
progress[0] with stage llm and answer 42 followed by the patch appending
progress[0].answer with 42 leaves exactly one Markdown block with content
42 in the target message's block list, for every date oracle. -/
theorem progress_scenario_single_markdown_block (dp : String → Bool) :
    (reduceAssistantMessage dp 32 emC7b
        (reduceAssistantMessage dp 32 emC7a store1 (.ref 0) "m1" msgsC7).1
        (reduceAssistantMessage dp 32 emC7a store1 (.ref 0) "m1" msgsC7).2.1
        "m1"
        (reduceAssistantMessage dp 32 emC7a store1 (.ref 0) "m1" msgsC7).2.2).2.2
      = [⟨"m1", [.markdown "42"], roleA, none⟩] := by
  rfl

/-! ### Claim C8: chart emission conditions -/

/-- Whether a block is a chart block. -/
def isJson2PlotBlock : Block → Bool
  | .json2plot _ => true
  | _ => false

/-- Number of chart blocks in a block list. -/
def countJPBlocks (blocks : List Block) : Nat :=
  (blocks.filter isJson2PlotBlock).length

/-- Number of chart blocks across the whole message list. -/
def countJson2Plot (msgs : List ChatMsgM) : Nat :=
  (msgs.map (fun m => countJPBlocks m.content)).sum

theorem countJPBlocks_append_nonplot (bs : List Block) (b : Block)
    (hb : isJson2PlotBlock b = false) :
    countJPBlocks (bs ++ [b]) = countJPBlocks bs := by
  simp [countJPBlocks, List.filter_append, hb]

theorem getLast?_decomp {α : Type} {l : List α} {b : α} (h : l.getLast? = some b) :
    l = l.dropLast ++ [b] := by
  induction l with
  | nil => simp at h
  | cons x rest ih =>
      cases rest with
      | nil => simp at h; simp [h]
      | cons y rest2 =>
          have h2 : (y :: rest2).getLast? = some b := by
            rw [← h]; simp [List.getLast?]
          have := ih h2
          calc x :: y :: rest2 = x :: ((y :: rest2).dropLast ++ [b]) := by rw [← this]
            _ = (x :: y :: rest2).dropLast ++ [b] := by simp

theorem countJPBlocks_merge (blocks : List Block) (t : String) :
    countJPBlocks (mergeMarkdownContent blocks t) = countJPBlocks blocks := by
  unfold mergeMarkdownContent
  cases hl : blocks.getLast? with
  | none => exact countJPBlocks_append_nonplot blocks (.markdown t) rfl
  | some b =>
      cases b with
      | markdown c =>
          dsimp only
          by_cases hc : (decide (c = "") || jsStartsWith t c) = true
          · rw [if_pos hc]
            have hdec := getLast?_decomp hl
            conv_rhs => rw [hdec]
            rw [countJPBlocks_append_nonplot blocks.dropLast (.markdown t) rfl,
              countJPBlocks_append_nonplot blocks.dropLast (.markdown c) rfl]
          · rw [if_neg hc]
            exact countJPBlocks_append_nonplot blocks (.markdown t) rfl
      | text c => exact countJPBlocks_append_nonplot blocks (.markdown t) rfl
      | webSearch q => exact countJPBlocks_append_nonplot blocks (.markdown t) rfl
      | toolExecuteCode i o => exact countJPBlocks_append_nonplot blocks (.markdown t) rfl
      | toolText2Sql a1 a2 a3 => exact countJPBlocks_append_nonplot blocks (.markdown t) rfl
      | json2plot ch => exact countJPBlocks_append_nonplot blocks (.markdown t) rfl

theorem countJson2Plot_update (msgs : List ChatMsgM) (mid : String)
    (f : ChatMsgM → List Block)
    (hf : ∀ m, countJPBlocks (f m) = countJPBlocks m.content) :
    countJson2Plot (msgs.map (fun msg =>
      if msg.messageId = mid then { msg with content := f msg } else msg))
      = countJson2Plot msgs := by
  unfold countJson2Plot
  rw [List.map_map]
  congr 1
  apply List.map_congr_left
  intro m _
  by_cases h : m.messageId = mid <;> simp [h, hf]

theorem countJson2Plot_appendMarkdown (msgs : List ChatMsgM) (mid t : String) :
    countJson2Plot (appendMarkdownBlock msgs mid t) = countJson2Plot msgs :=
  countJson2Plot_update msgs mid _ (fun m => countJPBlocks_merge m.content t)

theorem countJson2Plot_appendWebSearch (msgs : List ChatMsgM) (mid : String)
    (q : WebSearchQueryM) :
    countJson2Plot (appendWebSearchBlock msgs mid q) = countJson2Plot msgs :=
  countJson2Plot_update msgs mid _
    (fun m => countJPBlocks_append_nonplot m.content (.webSearch q) rfl)

theorem countJson2Plot_appendExecuteCode (msgs : List ChatMsgM) (mid : String)
    (r : ExecuteCodeResultM) :
    countJson2Plot (appendExecuteCodeBlock msgs mid r) = countJson2Plot msgs :=
  countJson2Plot_update msgs mid _
    (fun m => countJPBlocks_append_nonplot m.content (.toolExecuteCode r.input r.output) rfl)

theorem countJson2Plot_appendText2Sql (msgs : List ChatMsgM) (mid : String)
    (r : Text2SqlResultM) :
    countJson2Plot (appendText2SqlBlock msgs mid r) = countJson2Plot msgs :=
  countJson2Plot_update msgs mid _
    (fun m => countJPBlocks_append_nonplot m.content
      (.toolText2Sql r.title r.sql r.data) rfl)

theorem countJson2Plot_processSkill (dp : String → Bool) (s : Store)
    (content : JVal) (mid : String) (ms : List ChatMsgM)
    (hG : extractChartDataFromArgs dp s (propS s (propS s content "skill_info") "args")
      (propS s content "answer") = none) :
    countJson2Plot (processSkillExecution dp s (propS s content "skill_info")
      (propS s content "answer") mid ms) = countJson2Plot ms := by
  simp only [processSkillExecution]
  rw [hG]
  split_ifs with h1 h2 h3 h4 h5
  · rfl
  · split
    · exact countJson2Plot_appendWebSearch _ _ _
    · rfl
  · rfl
  · split
    · exact countJson2Plot_appendExecuteCode _ _ _
    · rfl
  · split
    · exact countJson2Plot_appendText2Sql _ _ _
    · rfl
  · exact countJson2Plot_appendMarkdown _ _ _

theorem countJson2Plot_processMiddle (dp : String → Bool) (s : Store)
    (content : JVal) (mid : String) (ms : List ChatMsgM)
    (hG : extractChartDataFromArgs dp s (propS s (propS s content "skill_info") "args")
      (propS s content "answer") = none) :
    countJson2Plot (processMiddleAnswerProgress dp s content mid ms)
      = countJson2Plot ms := by
  unfold processMiddleAnswerProgress
  split
  · exact countJson2Plot_processSkill dp s content mid ms hG
  · split
    · exact countJson2Plot_appendMarkdown _ _ _
    · rfl

/-- Claim C8: a chart block is emitted only when the extracted
result/full_result passes every gate: the chart type is one of Line,
Column, Pie, Circle, the row data is non-empty, and at least one dimension
and one measure were inferred (with the typing rule boolean to boolean,
number to number, date-parseable string to date, anything else to string);
whenever both extraction paths fail, the json2plot skill call adds no
chart block at all. -/
theorem json2plot_emission_conditions :
    (∀ (dp : String → Bool) (s : Store) (jd : JVal) (c : ChartDataSchemaM),
       buildChartData dp s jd = some c →
         c.chartType ∈ (["Line", "Column", "Pie", "Circle"] : List String) ∧
         c.rows ≠ [] ∧ c.dimensions ≠ [] ∧ c.measures ≠ []) ∧
    (∀ (dp : String → Bool) (s : Store) (progress : JVal) (c : ChartDataSchemaM),
       extractJson2PlotData dp s progress = some c →
         c.chartType ∈ (["Line", "Column", "Pie", "Circle"] : List String) ∧
         c.rows ≠ [] ∧ c.dimensions ≠ [] ∧ c.measures ≠ []) ∧
    (∀ (dp : String → Bool) (s : Store) (args answer : JVal) (c : ChartDataSchemaM),
       extractChartDataFromArgs dp s args answer = some c →
         c.chartType ∈ (["Line", "Column", "Pie", "Circle"] : List String) ∧
         c.rows ≠ [] ∧ c.dimensions ≠ [] ∧ c.measures ≠ []) ∧
    (∀ (dp : String → Bool) (b : Bool),
       inferDataType dp (.prim (.jbool b)) = .boolean) ∧
    (∀ (dp : String → Bool) (n : Int),
       inferDataType dp (.prim (.jnum n)) = .number) ∧
    (∀ (dp : String → Bool) (t : String),
       inferDataType dp (.prim (.jstr t)) = if dp t then .date else .string) ∧
    (∀ (dp : String → Bool) (s : Store) (content : JVal) (mid : String)
        (msgs : List ChatMsgM),
       extractJson2PlotData dp s content = none →
       extractChartDataFromArgs dp s (propS s (propS s content "skill_info") "args")
         (propS s content "answer") = none →
       countJson2Plot (postProgressBase dp s content mid msgs) = countJson2Plot msgs) := by
  have hbuild : ∀ (dp : String → Bool) (s : Store) (jd : JVal) (c : ChartDataSchemaM),
      buildChartData dp s jd = some c →
        c.chartType ∈ (["Line", "Column", "Pie", "Circle"] : List String) ∧
        c.rows ≠ [] ∧ c.dimensions ≠ [] ∧ c.measures ≠ [] := by
    intro dp s jd c h
    simp only [buildChartData] at h
    split at h <;> try exact Option.noConfusion h
    split at h <;> try exact Option.noConfusion h
    split at h <;> try exact Option.noConfusion h
    split at h <;> try exact Option.noConfusion h
    split at h <;> try exact Option.noConfusion h
    split at h <;> try exact Option.noConfusion h
    split at h <;> try exact Option.noConfusion h
    rename_i hg0 xv0 ct hty hct xo0 rows hnil harr xv1 fa hfa xo1 frn hfrn hguard
    injection h with h2
    subst h2
    refine ⟨?_, ?_, ?_, ?_⟩
    · simp only [Bool.not_eq_true] at hct
      have hc2 : (["Line", "Column", "Pie", "Circle"] : List String).contains ct = true := by
        cases hcc : (["Line", "Column", "Pie", "Circle"] : List String).contains ct
        · rw [hcc] at hct; simp at hct
        · rfl
      exact List.mem_of_elem_eq_true hc2
    · exact fun hnil2 => hnil hnil2
    · intro hdempty
      apply hguard
      have hd2 : (chartDimsF dp s (propS s jd "chart_config") (arrGet rows 0) frn) = [] :=
        hdempty
      rw [hd2]
      simp
    · intro hmempty
      apply hguard
      have hm2 : (chartMeasF dp s (propS s jd "chart_config") (arrGet rows 0) frn) = [] :=
        hmempty
      rw [hm2]
      simp
  refine ⟨hbuild, ?_, ?_, fun _ _ => rfl, fun _ _ => rfl, fun _ _ => rfl, ?_⟩
  · intro dp s progress c h
    simp only [extractJson2PlotData] at h
    split at h <;> try exact Option.noConfusion h
    split at h <;> try exact Option.noConfusion h
    split at h <;> try exact Option.noConfusion h
    exact hbuild dp s _ c h
  · intro dp s args answer c h
    simp only [extractChartDataFromArgs] at h
    split at h <;> try exact Option.noConfusion h
    exact hbuild dp s _ c h
  · intro dp s content mid msgs hA hG
    simp only [postProgressBase]
    rw [countJson2Plot_processMiddle dp s content mid _ hG]
    rcases hT : extractText2SqlResult s (propS s (propS s content "skill_info") "args")
        (propS s content "answer") with _ | r <;>
      rcases hW : extractWebSearchQuery s content with _ | q <;>
        simp only [hA, hT, hW] <;>
          split_ifs <;>
            simp [countJson2Plot_appendText2Sql, countJson2Plot_appendWebSearch,
              countJson2Plot_appendMarkdown]

/-- A json2plot skill payload carrying a valid Line chart with one sample
row. -/
def chartJson : Json :=
  .obj [("answer", .obj [("choices", .arr [.obj [("message", .obj [("tool_calls",
    .arr [.obj [("result", .obj [
      ("chart_config", .obj [("chart_type", .str "Line"), ("xField", .str "x"),
        ("yField", .str "y")]),
      ("data_sample", .arr [.obj [("x", .str "a"), ("y", .num 3)]])])]])])]])])]

/-- The chart payload allocated into the heap. -/
def chartSV : Store × JVal := allocJson store1 chartJson

/-- The chart the extraction yields for chartJson. -/
def chartC0 : ChartDataSchemaM :=
  ⟨"Line", .prim .jundef, [⟨"x", "x", .string⟩], [⟨"y", "y", .number⟩], [.ref 2]⟩

/-- A json2plot skill payload with no answer at all, so both extraction
paths fail. -/
def noneJson : Json :=
  .obj [("stage", .str "skill"), ("skill_info", .obj [("name", .str "json2plot")])]

/-- The failing payload allocated into the heap. -/
def noneSV : Store × JVal := allocJson store1 noneJson

/-- Witness for claim C8: the valid payload extracts a chart satisfying
every emission condition, and the payload on which both extraction paths
fail adds no chart block through the progress projector. -/
theorem json2plot_emission_conditions_witness :
    extractJson2PlotData noDate chartSV.1 chartSV.2 = some chartC0 ∧
    (chartC0.chartType ∈ (["Line", "Column", "Pie", "Circle"] : List String) ∧
      chartC0.rows ≠ [] ∧ chartC0.dimensions ≠ [] ∧ chartC0.measures ≠ []) ∧
    extractJson2PlotData noDate noneSV.1 noneSV.2 = none ∧
    countJson2Plot (postProgressBase noDate noneSV.1 noneSV.2 "m"
        [⟨"m", [], roleA, none⟩])
      = countJson2Plot [⟨"m", [], roleA, none⟩] :=
  ⟨by rfl,
   json2plot_emission_conditions.2.1 noDate chartSV.1 chartSV.2 chartC0 (by rfl),
   by rfl,
   json2plot_emission_conditions.2.2.2.2.2.2 noDate noneSV.1 noneSV.2 "m"
     [⟨"m", [], roleA, none⟩] (by rfl) (by rfl)⟩

/-! ### Claim C5: one reduction step never touches pre-existing heap nodes

The reducer deep-clones prev before mutating anything, so every write it
performs lands on an address allocated during this very reduction step.
We prove this with a region invariant: relative to the starting store s0,
a store s is a good extension (Inv s0 s) when its fresh counter has only
grown, every address below s0.next still reads its old node, and every
binding at or above s0.next only mentions addresses at or above s0.next
(the fresh region is closed).  Every operation the reducer performs
preserves Inv and only hands around values inside the fresh region. -/

/-- All references contained in a value lie in the fresh region. -/
def valAtLeast (n : Nat) : JVal → Prop
  | .ref a => n ≤ a
  | .prim _ => True

/-- All references contained in a node lie in the fresh region. -/
def nodeAtLeast (n : Nat) : JNode → Prop
  | .obj fields => ∀ p ∈ fields, valAtLeast n p.2
  | .arr elems => ∀ v ∈ elems, valAtLeast n v

/-- s is a good extension of s0: the counter grew, old reads are intact,
and the fresh region is closed. -/
def Inv (s0 s : Store) : Prop :=
  s0.next ≤ s.next ∧
  (∀ b, b < s0.next → lookupStore s b = lookupStore s0 b) ∧
  (∀ a nd, lookupStore s a = some nd → s0.next ≤ a → nodeAtLeast s0.next nd)

theorem inv_refl {s0 : Store} (hwf : StoreWF s0) : Inv s0 s0 := by
  refine ⟨le_refl _, fun _ _ => rfl, ?_⟩
  intro a nd hlk ha
  exact absurd (lookup_wf hwf hlk).1 (by omega)

theorem inv_alloc {s0 s : Store} (hinv : Inv s0 s) {nd : JNode}
    (hnd : nodeAtLeast s0.next nd) : Inv s0 (allocStore s nd).1 := by
  obtain ⟨hle, hold, hreg⟩ := hinv
  refine ⟨by simp [allocStore]; omega, ?_, ?_⟩
  · intro b hb
    rw [lookup_alloc_ne s nd b (by omega)]
    exact hold b hb
  · intro a nd2 hlk ha
    by_cases hae : a = s.next
    · subst hae
      rw [lookup_alloc_eq] at hlk
      cases hlk
      exact hnd
    · rw [lookup_alloc_ne s nd a hae] at hlk
      exact hreg a nd2 hlk ha

theorem inv_write {s0 s : Store} (hinv : Inv s0 s) {a : Nat} {nd : JNode}
    (ha : s0.next ≤ a) (hnd : nodeAtLeast s0.next nd) :
    Inv s0 (writeStore s a nd) := by
  obtain ⟨hle, hold, hreg⟩ := hinv
  refine ⟨by simp [writeStore]; omega, ?_, ?_⟩
  · intro b hb
    rw [lookup_writeStore_ne s a b nd (by omega)]
    exact hold b hb
  · intro a2 nd2 hlk ha2
    by_cases hae : a2 = a
    · subst hae
      rw [lookup_writeStore_eq] at hlk
      cases hlk
      exact hnd
    · rw [lookup_writeStore_ne s a a2 nd hae] at hlk
      exact hreg a2 nd2 hlk ha2

theorem getFieldD_atLeast {n : Nat} {fields : List (String × JVal)}
    (h : nodeAtLeast n (.obj fields)) (k : String) : valAtLeast n (getFieldD fields k) := by
  unfold getFieldD
  cases hfind : fields.find? (fun p => p.1 == k) with
  | none => exact trivial
  | some p => exact h p (List.mem_of_find?_eq_some hfind)

theorem arrGet_atLeast {n : Nat} {elems : List JVal}
    (h : nodeAtLeast n (.arr elems)) (i : Nat) : valAtLeast n (arrGet elems i) := by
  unfold arrGet
  simp only [List.getD, List.get?_eq_getElem?]
  rcases hlt : elems[i]? with _ | v
  · exact trivial
  · simp only [Option.getD_some]
    obtain ⟨hi, hv⟩ := List.getElem?_eq_some.mp hlt
    exact hv ▸ h elems[i] (List.getElem_mem hi)

theorem getProp_atLeast {s0 s : Store} (hinv : Inv s0 s) {v : JVal}
    (hv : valAtLeast s0.next v) (k : JKey) : valAtLeast s0.next (getProp s v k) := by
  cases v with
  | prim p => exact trivial
  | ref a =>
      cases hlk : lookupStore s a with
      | none => simp [getProp, hlk]; exact trivial
      | some nd =>
          have hnd := hinv.2.2 a nd hlk (by simpa [valAtLeast] using hv)
          cases nd with
          | obj fields =>
              simpa [getProp, hlk] using getFieldD_atLeast hnd (keyName k)
          | arr elems =>
              cases k with
              | idx i => simpa [getProp, hlk] using arrGet_atLeast hnd i
              | str t => simp [getProp, hlk]; exact trivial

theorem getNested_atLeast {s0 s : Store} (hinv : Inv s0 s) :
    ∀ (p : List JKey) (v : JVal), valAtLeast s0.next v →
      valAtLeast s0.next (getNestedProperty s v p) := by
  intro p
  induction p with
  | nil => intro v hv; exact hv
  | cons k rest ih =>
      intro v hv
      by_cases h : isNullish v
      · simp [getNestedProperty, h]; exact trivial
      · simp only [getNestedProperty, h, Bool.false_eq_true, if_false]
        exact ih _ (getProp_atLeast hinv hv k)

theorem setField_atLeast {n : Nat} {k : String} {v : JVal} (hv : valAtLeast n v) :
    ∀ (fields : List (String × JVal)), nodeAtLeast n (.obj fields) →
      nodeAtLeast n (.obj (setField fields k v)) := by
  intro fields
  induction fields with
  | nil =>
      intro h p hp
      simp only [setField, List.mem_singleton] at hp
      subst hp
      exact hv
  | cons q rest ih =>
      obtain ⟨k0, v0⟩ := q
      intro h p hp
      simp only [setField] at hp
      split at hp
      · rcases List.mem_cons.mp hp with h2 | h2
        · subst h2; exact hv
        · exact h p (List.mem_cons_of_mem (k0, v0) h2)
      · rcases List.mem_cons.mp hp with h2 | h2
        · subst h2; exact h (k0, v0) (List.mem_cons_self (k0, v0) rest)
        · exact ih (fun r hr => h r (List.mem_cons_of_mem (k0, v0) hr)) p h2

theorem arrSet_atLeast {n : Nat} {elems : List JVal}
    (h : nodeAtLeast n (.arr elems)) {i : Nat} {v : JVal} (hv : valAtLeast n v) :
    nodeAtLeast n (.arr (arrSet elems i v)) := by
  intro w hw
  unfold arrSet at hw
  split at hw
  · rcases List.mem_or_eq_of_mem_set hw with h2 | h2
    · exact h w h2
    · subst h2; exact hv
  · rcases List.mem_append.mp hw with h2 | h2
    · rcases List.mem_append.mp h2 with h3 | h3
      · exact h w h3
      · have := List.eq_of_mem_replicate h3
        subst this
        exact trivial
    · simp only [List.mem_singleton] at h2
      subst h2
      exact hv

theorem inv_writeProp {s0 s : Store} (hinv : Inv s0 s) {v : JVal}
    (hv : valAtLeast s0.next v) {k : JKey} {val : JVal} (hval : valAtLeast s0.next val) :
    Inv s0 (writeProp s v k val).1 := by
  cases v with
  | prim p => exact hinv
  | ref a =>
      have ha : s0.next ≤ a := by simpa [valAtLeast] using hv
      cases hlk : lookupStore s a with
      | none => simpa [writeProp, hlk] using hinv
      | some nd =>
          have hnd := hinv.2.2 a nd hlk ha
          cases nd with
          | obj fields =>
              simpa [writeProp, hlk] using
                inv_write hinv ha (setField_atLeast hval fields hnd)
          | arr elems =>
              cases k with
              | idx i =>
                  simpa [writeProp, hlk] using
                    inv_write hinv ha (arrSet_atLeast hnd hval)
              | str t => simpa [writeProp, hlk] using hinv

theorem inv_setNested {s0 : Store} :
    ∀ (keys : List JKey) (s : Store) (v : JVal) (value : JVal),
      Inv s0 s → valAtLeast s0.next v → valAtLeast s0.next value →
      Inv s0 (setNestedProperty s v keys value).1 := by
  intro keys
  induction keys with
  | nil => intro s v value hinv _ _; exact hinv
  | cons k rest ih =>
      intro s v value hinv hv hval
      cases rest with
      | nil =>
          exact inv_writeProp hinv hv hval
      | cons k2 rest2 =>
          cases k2 with
          | idx n2 =>
              simp only [setNestedProperty]
              split
              · cases hal : allocStore s (.arr []) with
                | mk s1 a =>
                    dsimp only
                    have h1 : Inv s0 s1 := by
                      have hbase : Inv s0 (allocStore s (.arr [])).1 :=
                        inv_alloc hinv (by intro q hq; simp at hq)
                      rw [hal] at hbase
                      exact hbase
                    have ha2 : s.next = a := congrArg Prod.snd hal
                    have hf : valAtLeast s0.next (JVal.ref a) := by
                      simp only [valAtLeast]
                      rw [← ha2]
                      exact hinv.1
                    have h2 : Inv s0 (writeProp s1 v k (.ref a)).1 :=
                      inv_writeProp h1 hv hf
                    cases hr : writeProp s1 v k (.ref a) with
                    | mk s2 ok =>
                        rw [hr] at h2
                        dsimp only
                        cases ok with
                        | false => exact h2
                        | true => exact ih _ _ value h2 hf hval
              · exact ih _ _ value hinv (getProp_atLeast hinv hv k) hval
          | str t2 =>
              simp only [setNestedProperty]
              split
              · cases hal : allocStore s (.obj []) with
                | mk s1 a =>
                    dsimp only
                    have h1 : Inv s0 s1 := by
                      have hbase : Inv s0 (allocStore s (.obj [])).1 :=
                        inv_alloc hinv (by intro q hq; simp at hq)
                      rw [hal] at hbase
                      exact hbase
                    have ha2 : s.next = a := congrArg Prod.snd hal
                    have hf : valAtLeast s0.next (JVal.ref a) := by
                      simp only [valAtLeast]
                      rw [← ha2]
                      exact hinv.1
                    have h2 : Inv s0 (writeProp s1 v k (.ref a)).1 :=
                      inv_writeProp h1 hv hf
                    cases hr : writeProp s1 v k (.ref a) with
                    | mk s2 ok =>
                        rw [hr] at h2
                        dsimp only
                        cases ok with
                        | false => exact h2
                        | true => exact ih _ _ value h2 hf hval
              · exact ih _ _ value hinv (getProp_atLeast hinv hv k) hval

theorem inv_shallowClone {s0 s : Store} (hinv : Inv s0 s) {v : JVal}
    (hv : valAtLeast s0.next v) :
    Inv s0 (shallowCloneJS s v).1 ∧ valAtLeast s0.next (shallowCloneJS s v).2 := by
  have hfresh : valAtLeast s0.next (JVal.ref s.next) := by
    simp only [valAtLeast]
    exact hinv.1
  cases v with
  | prim p =>
      constructor
      · apply inv_alloc hinv
        intro q hq
        simp at hq
      · exact hfresh
  | ref a =>
      have ha : s0.next ≤ a := by simpa [valAtLeast] using hv
      cases hlk : lookupStore s a with
      | none =>
          constructor
          · simp only [shallowCloneJS, hlk]
            apply inv_alloc hinv
            intro q hq
            simp at hq
          · simpa [shallowCloneJS, hlk] using hfresh
      | some nd =>
          have hnd := hinv.2.2 a nd hlk ha
          cases nd with
          | obj fields =>
              constructor
              · simp only [shallowCloneJS, hlk]
                exact inv_alloc hinv hnd
              · simpa [shallowCloneJS, hlk] using hfresh
          | arr elems =>
              constructor
              · simp only [shallowCloneJS, hlk]
                apply inv_alloc hinv
                intro q hq
                simp only [List.mem_map, List.mem_range] at hq
                obtain ⟨i, hi, hq2⟩ := hq
                subst hq2
                exact arrGet_atLeast hnd i
              · simpa [shallowCloneJS, hlk] using hfresh

theorem inv_applyUpsert {s0 s : Store} (hinv : Inv s0 s) {v : JVal}
    (hv : valAtLeast s0.next v) (keys : List JKey) {content : JVal}
    (hc : valAtLeast s0.next content) :
    Inv s0 (applyUpsert s v keys content).1 := by
  cases keys with
  | nil => exact hinv
  | cons k rest =>
      obtain ⟨hinv1, hcl⟩ := inv_shallowClone hinv hv
      exact inv_setNested (k :: rest) _ _ content hinv1 hcl hc

theorem inv_applyAppend {s0 s : Store} (hinv : Inv s0 s) {v : JVal}
    (hv : valAtLeast s0.next v) (keys : List JKey) {content : JVal}
    (hc : valAtLeast s0.next content) :
    Inv s0 (applyAppend s v keys content).1 := by
  unfold applyAppend
  cases hlast : keys.getLast? with
  | none => exact hinv
  | some lastKey =>
      obtain ⟨hinv1, hcl⟩ := inv_shallowClone hinv hv
      cases lastKey with
      | idx nn =>
          dsimp only
          cases hpar : getNestedProperty (shallowCloneJS s v).1 (shallowCloneJS s v).2
              keys.dropLast with
          | prim p => exact hinv1
          | ref a =>
              have ha : s0.next ≤ a := by
                have := getNested_atLeast hinv1 keys.dropLast _ hcl
                rw [hpar] at this
                simpa [valAtLeast] using this
              dsimp only
              cases hlk : lookupStore (shallowCloneJS s v).1 a with
              | none => exact hinv1
              | some nd =>
                  cases nd with
                  | obj fields => exact hinv1
                  | arr elems =>
                      have hnd := hinv1.2.2 a (.arr elems) hlk ha
                      dsimp only
                      exact inv_write hinv1 ha (arrSet_atLeast hnd hc)
      | str t =>
          dsimp only
          cases hcur : getNestedProperty (shallowCloneJS s v).1 (shallowCloneJS s v).2
              keys with
          | prim p =>
              cases p with
              | jstr s1 =>
                  cases content with
                  | prim cp =>
                      cases cp with
                      | jstr s2 =>
                          exact inv_setNested keys _ _ _ hinv1 hcl trivial
                      | jnull => exact inv_setNested keys _ _ _ hinv1 hcl hc
                      | jundef => exact inv_setNested keys _ _ _ hinv1 hcl hc
                      | jnum n2 => exact inv_setNested keys _ _ _ hinv1 hcl hc
                      | jbool b2 => exact inv_setNested keys _ _ _ hinv1 hcl hc
                  | ref ca => exact inv_setNested keys _ _ _ hinv1 hcl hc
              | jnull => exact inv_setNested keys _ _ _ hinv1 hcl hc
              | jundef => exact inv_setNested keys _ _ _ hinv1 hcl hc
              | jnum n1 => exact inv_setNested keys _ _ _ hinv1 hcl hc
              | jbool b1 => exact inv_setNested keys _ _ _ hinv1 hcl hc
          | ref a => exact inv_setNested keys _ _ _ hinv1 hcl hc

theorem inv_deepClone {s0 : Store} : ∀ (fuel : Nat),
    (∀ (s : Store) (v : JVal) (r : Store × JVal), Inv s0 s →
        deepCloneVal fuel s v = some r →
        Inv s0 r.1 ∧ valAtLeast s0.next r.2) ∧
    (∀ (s : Store) (fields : List (String × JVal)) (r : Store × List (String × JVal)),
        Inv s0 s → deepCloneFields fuel s fields = some r →
        Inv s0 r.1 ∧ ∀ p ∈ r.2, valAtLeast s0.next p.2) ∧
    (∀ (s : Store) (elems : List JVal) (r : Store × List JVal),
        Inv s0 s → deepCloneElems fuel s elems = some r →
        Inv s0 r.1 ∧ ∀ v ∈ r.2, valAtLeast s0.next v) := by
  intro fuel
  induction fuel with
  | zero =>
      refine ⟨?_, ?_, ?_⟩
      · intro s v r _ h; simp [deepCloneVal] at h
      · intro s fields r _ h; simp [deepCloneFields] at h
      · intro s elems r _ h; simp [deepCloneElems] at h
  | succ fuel ih =>
      obtain ⟨ihv, ihf, ihe⟩ := ih
      refine ⟨?_, ?_, ?_⟩
      · intro s v r hinv h
        cases v with
        | prim p =>
            cases p with
            | jundef => exact Option.noConfusion h
            | jnull => injection h with h; subst h; exact ⟨hinv, trivial⟩
            | jstr t => injection h with h; subst h; exact ⟨hinv, trivial⟩
            | jnum n => injection h with h; subst h; exact ⟨hinv, trivial⟩
            | jbool bb => injection h with h; subst h; exact ⟨hinv, trivial⟩
        | ref a =>
            rw [deepCloneVal] at h
            cases hlk : lookupStore s a with
            | none => rw [hlk] at h; exact Option.noConfusion h
            | some nd =>
                rw [hlk] at h
                cases nd with
                | obj fields =>
                    dsimp only at h
                    cases hdf : deepCloneFields fuel s fields with
                    | none => rw [hdf] at h; exact Option.noConfusion h
                    | some r1 =>
                        obtain ⟨s1, fs⟩ := r1
                        rw [hdf] at h
                        dsimp only at h
                        injection h with h
                        subst h
                        obtain ⟨h1, h2⟩ := ihf s fields (s1, fs) hinv hdf
                        exact ⟨inv_alloc h1 h2, h1.1⟩
                | arr elems =>
                    dsimp only at h
                    cases hde : deepCloneElems fuel s elems with
                    | none => rw [hde] at h; exact Option.noConfusion h
                    | some r1 =>
                        obtain ⟨s1, es⟩ := r1
                        rw [hde] at h
                        dsimp only at h
                        injection h with h
                        subst h
                        obtain ⟨h1, h2⟩ := ihe s elems (s1, es) hinv hde
                        exact ⟨inv_alloc h1 h2, h1.1⟩
      · intro s fields r hinv h
        cases fields with
        | nil =>
            injection h with h
            subst h
            exact ⟨hinv, by intro p hp; simp at hp⟩
        | cons q rest =>
            obtain ⟨k, v⟩ := q
            rw [deepCloneFields] at h
            split at h
            · exact ihf s rest r hinv h
            · split at h
              · rename_i s1 v2 hdv
                split at h
                · rename_i s2 fs hdr
                  injection h with h
                  subst h
                  obtain ⟨h1, h2⟩ := ihv s v (s1, v2) hinv hdv
                  obtain ⟨h3, h4⟩ := ihf s1 rest (s2, fs) h1 hdr
                  refine ⟨h3, ?_⟩
                  intro p hp
                  rcases List.mem_cons.mp hp with h5 | h5
                  · subst h5; exact h2
                  · exact h4 p h5
                · exact Option.noConfusion h
              · exact Option.noConfusion h
      · intro s elems r hinv h
        cases elems with
        | nil =>
            injection h with h
            subst h
            exact ⟨hinv, by intro v hv; simp at hv⟩
        | cons v rest =>
            rw [deepCloneElems] at h
            split at h
            · rename_i s1 v2 hdv
              split at h
              · rename_i s2 es hdr
                injection h with h
                subst h
                obtain ⟨h1, h2⟩ := ihv s _ (s1, v2) hinv hdv
                obtain ⟨h3, h4⟩ := ihe s1 rest (s2, es) h1 hdr
                refine ⟨h3, ?_⟩
                intro w hw
                rcases List.mem_cons.mp hw with h5 | h5
                · subst h5; exact h2
                · exact h4 w h5
              · exact Option.noConfusion h
            · exact Option.noConfusion h

mutual

theorem inv_allocJson {s0 : Store} : ∀ (j : Json) (s : Store), Inv s0 s →
    Inv s0 (allocJson s j).1 ∧ valAtLeast s0.next (allocJson s j).2
  | .null, _, hinv => ⟨hinv, trivial⟩
  | .str _, _, hinv => ⟨hinv, trivial⟩
  | .num _, _, hinv => ⟨hinv, trivial⟩
  | .bool _, _, hinv => ⟨hinv, trivial⟩
  | .obj fields, s, hinv => by
      obtain ⟨h1, h2⟩ := inv_allocJsonFields fields s hinv
      exact ⟨inv_alloc h1 h2, h1.1⟩
  | .arr elems, s, hinv => by
      obtain ⟨h1, h2⟩ := inv_allocJsonElems elems s hinv
      exact ⟨inv_alloc h1 h2, h1.1⟩

theorem inv_allocJsonFields {s0 : Store} :
    ∀ (fields : List (String × Json)) (s : Store), Inv s0 s →
      Inv s0 (allocJsonFields s fields).1 ∧
        ∀ p ∈ (allocJsonFields s fields).2, valAtLeast s0.next p.2
  | [], _, hinv => ⟨hinv, by intro p hp; simp [allocJsonFields] at hp⟩
  | (k, j) :: rest, s, hinv => by
      obtain ⟨h1, h2⟩ := inv_allocJson j s hinv
      obtain ⟨h3, h4⟩ := inv_allocJsonFields rest (allocJson s j).1 h1
      refine ⟨h3, ?_⟩
      intro p hp
      simp only [allocJsonFields, List.mem_cons] at hp
      rcases hp with h5 | h5
      · subst h5; exact h2
      · exact h4 p h5

theorem inv_allocJsonElems {s0 : Store} :
    ∀ (elems : List Json) (s : Store), Inv s0 s →
      Inv s0 (allocJsonElems s elems).1 ∧
        ∀ v ∈ (allocJsonElems s elems).2, valAtLeast s0.next v
  | [], _, hinv => ⟨hinv, by intro v hv; simp [allocJsonElems] at hv⟩
  | j :: rest, s, hinv => by
      obtain ⟨h1, h2⟩ := inv_allocJson j s hinv
      obtain ⟨h3, h4⟩ := inv_allocJsonElems rest (allocJson s j).1 h1
      refine ⟨h3, ?_⟩
      intro v hv
      simp only [allocJsonElems, List.mem_cons] at hv
      rcases hv with h5 | h5
      · subst h5; exact h2
      · exact h4 v h5

end

/-- Claim C5: one reduction step leaves every pre-existing heap binding of
a well-formed store untouched: each address allocated before the step reads
the same node after the step, so the previous tree snapshot (and every
earlier one) is structurally unchanged and remains inspectable. -/
theorem reduceAssistantMessage_preserves_prev (dp : String → Bool) (fuel : Nat)
    (em : EventMessageM) (s : Store) (prev : JVal) (mid : String)
    (msgs : List ChatMsgM) (hwf : StoreWF s) :
    ∀ b : Nat, b < s.next →
      lookupStore (reduceAssistantMessage dp fuel em s prev mid msgs).1 b =
        lookupStore s b := by
  intro b hb
  have hinv0 : Inv s s := inv_refl hwf
  have hfin : ∀ (ar : Store × JVal × Bool) (X : List ChatMsgM), Inv s ar.1 →
      lookupStore (if ar.2.2 = false then (ar.1, prev, msgs)
        else (ar.1, ar.2.1, X)).1 b = lookupStore s b := by
    intro ar X hinv
    split
    · exact hinv.2.1 b hb
    · exact hinv.2.1 b hb
  have htail : ∀ (am0 : JVal), valAtLeast s.next am0 →
      ∀ (r2 : Store × JVal), Inv s r2.1 → valAtLeast s.next r2.2 →
      Inv s (if em.action = "upsert" then applyUpsert r2.1 am0 em.key r2.2
        else if em.action = "append" then applyAppend r2.1 am0 em.key r2.2
        else (r2.1, am0, true)).1 := by
    intro am0 h2 r2 h3 h4
    split
    · exact inv_applyUpsert h3 h2 em.key h4
    · split
      · exact inv_applyAppend h3 h2 em.key h4
      · exact h3
  rw [reduceAssistantMessage]
  split
  · rfl
  · cases hwl : getWhitelistEntry em.action (keyToJSONPath em.key) with
    | none => rfl
    | some entry =>
        dsimp only
        by_cases htr : truthy prev = true
        · rw [if_pos htr]
          cases hdc : deepCloneVal fuel s prev with
          | none => rfl
          | some r1 =>
              obtain ⟨s1, am0⟩ := r1
              dsimp only
              obtain ⟨h1, h2⟩ := (inv_deepClone fuel).1 s prev (s1, am0) hinv0 hdc
              cases em.content with
              | none =>
                  dsimp only
                  exact hfin _ _ (htail am0 h2 (s1, JVal.prim .jundef) h1 trivial)
              | some j =>
                  dsimp only
                  obtain ⟨h3, h4⟩ := inv_allocJson j s1 h1
                  exact hfin _ _ (htail am0 h2 (allocJson s1 j) h3 h4)
        · rw [if_neg htr]
          dsimp only
          have h1 : Inv s (allocStore s (.obj [])).1 :=
            inv_alloc hinv0 (by intro q hq; simp at hq)
          have h2 : valAtLeast s.next (JVal.ref (allocStore s (.obj [])).2) :=
            Nat.le_refl s.next
          cases em.content with
          | none =>
              dsimp only
              exact hfin _ _ (htail _ h2 ((allocStore s (.obj [])).1, JVal.prim .jundef)
                h1 trivial)
          | some j =>
              dsimp only
              obtain ⟨h3, h4⟩ := inv_allocJson j (allocStore s (.obj [])).1 h1
              exact hfin _ _ (htail _ h2 (allocJson (allocStore s (.obj [])).1 j) h3 h4)

/-- Witness for claim C5: running the first C7 patch on the pre-populated
tree of store2 leaves the pre-existing progress array binding at address 4
(and implicitly every other old address) reading exactly what it read
before the step. -/
theorem reduceAssistantMessage_preserves_prev_witness :
    StoreWF store2 ∧ (4 : Nat) < store2.next ∧
    lookupStore (reduceAssistantMessage noDate 8 emC7a store2 (.ref 0) "m1" msgsC7).1 4 =
      lookupStore store2 4 :=
  ⟨by decide, by decide,
    reduceAssistantMessage_preserves_prev noDate 8 emC7a store2 (.ref 0) "m1" msgsC7
      (by decide) 4 (by decide)⟩

end ChatKit
